import Mathlib

/-! RetroArch driver shims: touch table, key bitmap, texture blit, WebGL context.

A shallow embedding of the parts of

* `input/common/wayland_common.c` (keyboard, pointer and touch listeners, splash
  screen),
* `gfx/common/d3d8_common.h` (`d3d8_texture_blit`),
* `gfx/drivers_context/emulatorjs_ctx.c` (context driver),

that the verified properties talk about.

Conventions of the embedding.

* A C array is a function from the index to the element; the declared length
  (`MAX_TOUCHES`, `UDEV_MAX_KEYS`) is a parameter, because the header that
  declares it is not among the sources.  A store outside the array is a fault:
  the handler returns `none`.
* `int` is `Int`, `unsigned` / `uint32_t` is `Nat`; a conversion to
  `unsigned` and every `unsigned` product is reduced modulo `2 ^ 32`.  Where
  `int` products are computed (`shm_buffer_paint_checkerboard`,
  `create_shm_buffer`), an overflow is undefined behaviour, a fault of the
  embedded function.
* Calls into the platform (Emscripten, libc) are recorded in a trace, their
  results are inputs of the embedded function.
-/

namespace RetroArch

/-! ## Machine integers -/

/-- The C conversion of an `int` to `unsigned` (32 bit). -/
def to_unsigned (v : Int) : Nat := (v % 2 ^ 32).toNat

/-- Library function of `wayland-util.h`: `wl_fixed_to_int (f) = f / 256` with the
truncating division of C. -/
def wl_fixed_to_int (f : Int) : Int := Int.tdiv f 256

/-! ## Data model of `wayland_common.c` -/

/-- One slot of the touch table (`touch_pos_t`). -/
structure touch_pos where
  id : Int
  x : Nat
  y : Nat
  active : Bool
deriving DecidableEq

/-- The pointer fields of `wl->input.mouse` that the listeners write. -/
structure wl_mouse where
  surface : Nat
  focus : Bool
  left : Bool
  right : Bool
  middle : Bool
deriving DecidableEq

/-- The input part of the context (`wl->input`): `key_state` is the byte array
of the key bitmap, of `UDEV_MAX_KEYS` bytes. -/
structure input_ctx_wayland_data_t where
  key_state : Nat → Nat
  keyboard_focus : Bool
  mouse : wl_mouse

/-- The fields of `gfx_ctx_wayland_data_t` that the listeners and the splash
screen use: `active_touch_positions` is the array of `MAX_TOUCHES` slots,
`surface` the address of the `wl_surface`; `width`, `height` and `buffer_scale`
are handed to `int` parameters by `draw_splash_screen`. -/
structure gfx_ctx_wayland_data_t where
  input : input_ctx_wayland_data_t
  num_active_touches : Int
  active_touch_positions : Nat → touch_pos
  surface : Nat
  width : Int
  height : Int
  buffer_scale : Int

/-- The value the handlers store into a released slot:
`active = false, id = -1, x = 0, y = 0`. -/
def touch_cleared : touch_pos := { id := -1, x := 0, y := 0, active := false }

/-! ## Touch listeners -/

/-- The loop of `touch_handle_down`, `for (i = 0; i < MAX_TOUCHES; i++)`, with
`fuel` iterations left at index `i`.  At the first inactive slot `i` the new
touch is stored at index `num_active_touches` (not at `i`), the counter is
incremented and the loop is left.  The store faults when the index is not
inside the array. -/
def touch_handle_down_loop (MAX_TOUCHES : Nat) (wl : gfx_ctx_wayland_data_t)
    (id x y : Int) : Nat → Nat → Option gfx_ctx_wayland_data_t
  | 0, _ => some wl
  | fuel + 1, i =>
    if !(wl.active_touch_positions i).active then
      if 0 ≤ wl.num_active_touches ∧ wl.num_active_touches < (MAX_TOUCHES : Int) then
        some { wl with
          active_touch_positions :=
            Function.update wl.active_touch_positions wl.num_active_touches.toNat
              { active := true, id := id,
                x := to_unsigned (wl_fixed_to_int x),
                y := to_unsigned (wl_fixed_to_int y) }
          num_active_touches := wl.num_active_touches + 1 }
      else none
    else touch_handle_down_loop MAX_TOUCHES wl id x y fuel (i + 1)

/-- Embedding of `touch_handle_down`. -/
def touch_handle_down (MAX_TOUCHES : Nat) (wl : gfx_ctx_wayland_data_t)
    (id x y : Int) : Option gfx_ctx_wayland_data_t :=
  if wl.num_active_touches < (MAX_TOUCHES : Int) then
    touch_handle_down_loop MAX_TOUCHES wl id x y MAX_TOUCHES 0
  else some wl

/-- Result of the inner loop of `reorder_touches`. -/
inductive reorder_inner_result where
  | moved (t : Nat → touch_pos)
  | exhausted
  | returned

/-- The inner loop of `reorder_touches`, `for (j = i+1; j < MAX_TOUCHES; j++)`,
with `fuel` iterations left at index `j`: the first active slot `j` is copied
field by field to slot `i` and then cleared (`break`); the test
`j == MAX_TOUCHES` of the source follows inside the loop body. -/
def reorder_touches_inner (MAX_TOUCHES i : Nat) :
    Nat → Nat → (Nat → touch_pos) → reorder_inner_result
  | 0, _, _ => reorder_inner_result.exhausted
  | fuel + 1, j, t =>
    if (t j).active then
      reorder_inner_result.moved
        (Function.update
          (Function.update t i
            { active := (t j).active, id := (t j).id, x := (t j).x, y := (t j).y })
          j touch_cleared)
    else if j = MAX_TOUCHES then reorder_inner_result.returned
    else reorder_touches_inner MAX_TOUCHES i fuel (j + 1) t

/-- The outer loop of `reorder_touches`, `for (i = 0; i < MAX_TOUCHES; i++)`,
with `fuel` iterations left at index `i`. -/
def reorder_touches_loop (MAX_TOUCHES : Nat) :
    Nat → Nat → (Nat → touch_pos) → (Nat → touch_pos)
  | 0, _, t => t
  | fuel + 1, i, t =>
    if !(t i).active then
      match reorder_touches_inner MAX_TOUCHES i (MAX_TOUCHES - (i + 1)) (i + 1) t with
      | reorder_inner_result.moved t' => reorder_touches_loop MAX_TOUCHES fuel (i + 1) t'
      | reorder_inner_result.exhausted => reorder_touches_loop MAX_TOUCHES fuel (i + 1) t
      | reorder_inner_result.returned => t
    else reorder_touches_loop MAX_TOUCHES fuel (i + 1) t

/-- Embedding of `reorder_touches`. -/
def reorder_touches (MAX_TOUCHES : Nat) (wl : gfx_ctx_wayland_data_t) :
    gfx_ctx_wayland_data_t :=
  if wl.num_active_touches = 0 then wl
  else { wl with
    active_touch_positions :=
      reorder_touches_loop MAX_TOUCHES MAX_TOUCHES 0 wl.active_touch_positions }

/-- The loop of `touch_handle_up` with `fuel` iterations left at index `i`:
every active slot that holds `id` is cleared and the counter decremented. -/
def touch_handle_up_loop (id : Int) :
    Nat → Nat → gfx_ctx_wayland_data_t → gfx_ctx_wayland_data_t
  | 0, _, wl => wl
  | fuel + 1, i, wl =>
    if (wl.active_touch_positions i).active && (wl.active_touch_positions i).id == id then
      touch_handle_up_loop id fuel (i + 1)
        { wl with
          active_touch_positions := Function.update wl.active_touch_positions i touch_cleared
          num_active_touches := wl.num_active_touches - 1 }
    else touch_handle_up_loop id fuel (i + 1) wl

/-- Embedding of `touch_handle_up`. -/
def touch_handle_up (MAX_TOUCHES : Nat) (wl : gfx_ctx_wayland_data_t) (id : Int) :
    gfx_ctx_wayland_data_t :=
  reorder_touches MAX_TOUCHES (touch_handle_up_loop id MAX_TOUCHES 0 wl)

/-- The loop of `touch_handle_motion` with `fuel` iterations left at index `i`. -/
def touch_handle_motion_loop (id x y : Int) :
    Nat → Nat → gfx_ctx_wayland_data_t → gfx_ctx_wayland_data_t
  | 0, _, wl => wl
  | fuel + 1, i, wl =>
    if (wl.active_touch_positions i).active && (wl.active_touch_positions i).id == id then
      touch_handle_motion_loop id x y fuel (i + 1)
        { wl with
          active_touch_positions := Function.update wl.active_touch_positions i
            { wl.active_touch_positions i with
              x := to_unsigned (wl_fixed_to_int x)
              y := to_unsigned (wl_fixed_to_int y) } }
    else touch_handle_motion_loop id x y fuel (i + 1) wl

/-- Embedding of `touch_handle_motion`. -/
def touch_handle_motion (MAX_TOUCHES : Nat) (wl : gfx_ctx_wayland_data_t)
    (id x y : Int) : gfx_ctx_wayland_data_t :=
  touch_handle_motion_loop id x y MAX_TOUCHES 0 wl

/-- The loop of `touch_handle_cancel` with `fuel` iterations left at index `i`. -/
def touch_handle_cancel_loop :
    Nat → Nat → (Nat → touch_pos) → (Nat → touch_pos)
  | 0, _, t => t
  | fuel + 1, i, t => touch_handle_cancel_loop fuel (i + 1) (Function.update t i touch_cleared)

/-- Embedding of `touch_handle_cancel`. -/
def touch_handle_cancel (MAX_TOUCHES : Nat) (wl : gfx_ctx_wayland_data_t) :
    gfx_ctx_wayland_data_t :=
  { wl with
    active_touch_positions :=
      touch_handle_cancel_loop MAX_TOUCHES 0 wl.active_touch_positions
    num_active_touches := 0 }

/-- The touch events of the `wl_touch` listener that change the table. -/
inductive touch_event where
  | down (id x y : Int)
  | up (id : Int)
  | motion (id x y : Int)
  | cancel

/-- One listener call. -/
def touch_step (MAX_TOUCHES : Nat) (wl : gfx_ctx_wayland_data_t) :
    touch_event → Option gfx_ctx_wayland_data_t
  | touch_event.down id x y => touch_handle_down MAX_TOUCHES wl id x y
  | touch_event.up id => some (touch_handle_up MAX_TOUCHES wl id)
  | touch_event.motion id x y => some (touch_handle_motion MAX_TOUCHES wl id x y)
  | touch_event.cancel => some (touch_handle_cancel MAX_TOUCHES wl)

/-- A sequence of listener calls, in order. -/
def touch_run (MAX_TOUCHES : Nat) :
    gfx_ctx_wayland_data_t → List touch_event → Option gfx_ctx_wayland_data_t
  | wl, [] => some wl
  | wl, e :: es =>
    match touch_step MAX_TOUCHES wl e with
    | none => none
    | some wl' => touch_run MAX_TOUCHES wl' es

/-- The contents of the array, slot 0 first. -/
def touch_slots (MAX_TOUCHES : Nat) (t : Nat → touch_pos) : List touch_pos :=
  (List.range MAX_TOUCHES).map t

/-- The active slots of the array in slot order. -/
def active_list (MAX_TOUCHES : Nat) (t : Nat → touch_pos) : List touch_pos :=
  (touch_slots MAX_TOUCHES t).filter (fun s => s.active)

/-- The number of active slots of the array. -/
def num_active_slots (MAX_TOUCHES : Nat) (t : Nat → touch_pos) : Nat :=
  (active_list MAX_TOUCHES t).length

/-- An empty touch table: no slot active and the counter at zero. -/
def touch_table_empty (MAX_TOUCHES : Nat) (wl : gfx_ctx_wayland_data_t) : Prop :=
  wl.num_active_touches = 0 ∧
    ∀ i, i < MAX_TOUCHES → (wl.active_touch_positions i).active = false

/-- A slot is hit by an up or motion event for `id`: the test
`active_touch_positions[i].active && active_touch_positions[i].id == id`. -/
def touch_matches (id : Int) (s : touch_pos) : Bool := s.active && s.id == id

/-- Active slots form an initial segment of the array: behind an inactive slot
every slot is inactive. -/
def touch_packed (MAX_TOUCHES : Nat) (t : Nat → touch_pos) : Prop :=
  ∀ k, k < MAX_TOUCHES → (t k).active = false →
    ∀ m, k < m → m < MAX_TOUCHES → (t m).active = false

/-- The invariant of the touch table: the counter is within `0 .. MAX_TOUCHES`
and slot `i` is active exactly when `i` is below the counter. -/
def touch_inv (MAX_TOUCHES : Nat) (wl : gfx_ctx_wayland_data_t) : Prop :=
  0 ≤ wl.num_active_touches ∧ wl.num_active_touches ≤ (MAX_TOUCHES : Int) ∧
    ∀ i, i < MAX_TOUCHES →
      ((wl.active_touch_positions i).active = true ↔ (i : Int) < wl.num_active_touches)

/-- Every active slot of the array holds an id of the set `S`. -/
def active_ids_in (MAX_TOUCHES : Nat) (wl : gfx_ctx_wayland_data_t) (S : Int → Prop) : Prop :=
  ∀ k, k < MAX_TOUCHES → (wl.active_touch_positions k).active = true →
    S (wl.active_touch_positions k).id

/-- The context right after its allocation with `calloc`: all bytes zero. -/
def wl_zero : gfx_ctx_wayland_data_t :=
  { input :=
      { key_state := fun _ => 0
        keyboard_focus := false
        mouse := { surface := 0, focus := false, left := false, right := false,
                   middle := false } }
    num_active_touches := 0
    active_touch_positions := fun _ => { id := 0, x := 0, y := 0, active := false }
    surface := 0
    width := 0
    height := 0
    buffer_scale := 0 }

/-! ## Keyboard listener -/

/-- Constants that `keyboard_handle_key` and `keyboard_handle_leave` take from
headers outside the sources at hand (`linux/input-event-codes.h`, the Wayland
protocol header, the input driver header): the key codes of the `switch`, the
two key states and the byte length `UDEV_MAX_KEYS` of `key_state`. -/
structure keyboard_consts where
  KEY_OK : Nat
  KEY_SELECT : Nat
  KEY_ENTER : Nat
  KEY_EXIT : Nat
  KEY_CLEAR : Nat
  WL_KEYBOARD_KEY_STATE_PRESSED : Nat
  WL_KEYBOARD_KEY_STATE_RELEASED : Nat
  UDEV_MAX_KEYS : Nat

/-- The values of the constants on Linux: `KEY_OK = 0x160`, `KEY_SELECT = 0x161`,
`KEY_ENTER = 28`, `KEY_EXIT = 174`, `KEY_CLEAR = 0x163`, pressed `1`, released `0`,
and `UDEV_MAX_KEYS = (KEY_MAX + 7) / 8` with `KEY_MAX = 0x2ff`. -/
def linux_keyboard_consts : keyboard_consts :=
  { KEY_OK := 0x160, KEY_SELECT := 0x161, KEY_ENTER := 28, KEY_EXIT := 174,
    KEY_CLEAR := 0x163, WL_KEYBOARD_KEY_STATE_PRESSED := 1,
    WL_KEYBOARD_KEY_STATE_RELEASED := 0, UDEV_MAX_KEYS := (0x2ff + 7) / 8 }

/-- Modelled from the spec: `BIT_GET (a, bit)`, a macro of `retro_miscellaneous.h`
that is not among the sources, reads bit `bit` of the key bitmap.  The bitmap is
a byte array; bit `bit` is bit `bit & 7` of byte `bit >> 3`:
`((a)[(bit) >> 3] >> ((bit) & 7)) & 1`. -/
def BIT_GET (a : Nat → Nat) (bit : Nat) : Nat := (a (bit >>> 3) >>> (bit &&& 7)) &&& 1

/-- Modelled from the spec: `BIT_SET (a, bit)`, a macro of `retro_miscellaneous.h`
that is not among the sources, sets bit `bit` of the key bitmap:
`(a)[(bit) >> 3] |= (1 << ((bit) & 7))` on a `uint8_t` array of `size` bytes.  A
store outside the array is a fault. -/
def BIT_SET (size : Nat) (a : Nat → Nat) (bit : Nat) : Option (Nat → Nat) :=
  if bit >>> 3 < size then
    some (Function.update a (bit >>> 3) ((a (bit >>> 3) ||| (1 <<< (bit &&& 7))) % 256))
  else none

/-- Modelled from the spec: `BIT_CLEAR (a, bit)`, a macro of `retro_miscellaneous.h`
that is not among the sources, clears bit `bit` of the key bitmap:
`(a)[(bit) >> 3] &= ~(1 << ((bit) & 7))` on a `uint8_t` array of `size` bytes; the
complement is taken on 32 bits and the result stored as a byte.  A store outside
the array is a fault. -/
def BIT_CLEAR (size : Nat) (a : Nat → Nat) (bit : Nat) : Option (Nat → Nat) :=
  if bit >>> 3 < size then
    some (Function.update a (bit >>> 3)
      ((a (bit >>> 3) &&& (4294967295 ^^^ (1 <<< (bit &&& 7)))) % 256))
  else none

/-- Embedding of `keyboard_handle_leave`: focus is dropped and
`memset (key_state, 0, sizeof (key_state))` releases all keys. -/
def keyboard_handle_leave (c : keyboard_consts) (wl : gfx_ctx_wayland_data_t) :
    gfx_ctx_wayland_data_t :=
  { wl with
    input :=
      { wl.input with
        keyboard_focus := false
        key_state := fun i => if i < c.UDEV_MAX_KEYS then 0 else wl.input.key_state i } }

/-- The `switch (key)` of `keyboard_handle_key`.  No arm ends in `break`: the arm
of `KEY_OK` and `KEY_SELECT` assigns `KEY_ENTER` and falls through into the arm of
`KEY_EXIT`, which assigns `KEY_CLEAR`. -/
def keyboard_keysym (c : keyboard_consts) (key : Nat) : Nat :=
  let keysym := key
  let keysym := if key = c.KEY_OK ∨ key = c.KEY_SELECT then c.KEY_ENTER else keysym
  let keysym :=
    if key = c.KEY_OK ∨ key = c.KEY_SELECT ∨ key = c.KEY_EXIT then c.KEY_CLEAR else keysym
  keysym

/-- What `keyboard_handle_key` leaves behind: the context, and the `value` and
`keysym` it hands on (to `handle_xkb`, or to `input_keyboard_event` through
`input_keymaps_translate_keysym_to_rk`). -/
structure keyboard_key_result where
  wl : gfx_ctx_wayland_data_t
  value : Int
  keysym : Nat

/-- Embedding of `keyboard_handle_key`. -/
def keyboard_handle_key (c : keyboard_consts) (wl : gfx_ctx_wayland_data_t)
    (key state : Nat) : Option keyboard_key_result :=
  let value : Int := 1
  let keysym := keyboard_keysym c key
  if state = c.WL_KEYBOARD_KEY_STATE_PRESSED then
    match BIT_SET c.UDEV_MAX_KEYS wl.input.key_state keysym with
    | none => none
    | some ks =>
      some { wl := { wl with input := { wl.input with key_state := ks } }
             value := 1, keysym := keysym }
  else if state = c.WL_KEYBOARD_KEY_STATE_RELEASED then
    match BIT_CLEAR c.UDEV_MAX_KEYS wl.input.key_state keysym with
    | none => none
    | some ks =>
      some { wl := { wl with input := { wl.input with key_state := ks } }
             value := 0, keysym := keysym }
  else some { wl := wl, value := value, keysym := keysym }

/-! ## `d3d8_texture_blit` -/

/-- Library function `memcpy (out, in, n)` on a byte-addressed memory, for a
source and a destination region that do not overlap: the `n` bytes at `out` take
the values of the `n` bytes at `inp`. -/
def memcpy (mem : Nat → Nat) (out inp n : Nat) : Nat → Nat :=
  fun a => if out ≤ a ∧ a < out + n then mem (inp + (a - out)) else mem a

/-- The fields of `D3DLOCKED_RECT` (Direct3D 8 header): `INT Pitch` and the
address `pBits` of the locked bits. -/
structure D3DLOCKED_RECT where
  Pitch : Int
  pBits : Nat

/-- The row length `width * pixel_size` that `d3d8_texture_blit` passes to `memcpy`:
an `unsigned` product, taken modulo `2 ^ 32`. -/
def blit_row_bytes (width pixel_size : Nat) : Nat := (width * pixel_size) % 2 ^ 32

/-- The source offset `y * pitch` of row `y`: an `unsigned` product, taken modulo
`2 ^ 32`. -/
def blit_src_offset (pitch y : Nat) : Nat := (y * pitch) % 2 ^ 32

/-- The destination offset `y * lr->Pitch` of row `y`: `lr->Pitch` is an `INT` and
is converted to `unsigned` for the product with the `unsigned` row `y`. -/
def blit_dst_offset (lr : D3DLOCKED_RECT) (y : Nat) : Nat :=
  to_unsigned ((y : Int) * lr.Pitch)

/-- The loop of `d3d8_texture_blit`, `for (y = 0; y < height; y++)`, with `fuel`
iterations left at row `y`: `in = frame + y * pitch`,
`out = lr->pBits + y * lr->Pitch`, `memcpy (out, in, width * pixel_size)`. -/
def d3d8_texture_blit_loop (pixel_size : Nat) (lr : D3DLOCKED_RECT) (frame : Nat)
    (width pitch : Nat) : Nat → Nat → (Nat → Nat) → (Nat → Nat)
  | 0, _, mem => mem
  | fuel + 1, y, mem =>
    let inp := frame + blit_src_offset pitch y
    let out := lr.pBits + blit_dst_offset lr y
    d3d8_texture_blit_loop pixel_size lr frame width pitch fuel (y + 1)
      (memcpy mem out inp (blit_row_bytes width pixel_size))

/-- Embedding of `d3d8_texture_blit` (the parameter `tex` is not used by the
source): `frame` is the address of the source image, `mem` the memory before the
call, the result the memory after it. -/
def d3d8_texture_blit (pixel_size : Nat) (lr : D3DLOCKED_RECT) (frame : Nat)
    (width height pitch : Nat) (mem : Nat → Nat) : Nat → Nat :=
  d3d8_texture_blit_loop pixel_size lr frame width pitch height 0 mem

/-! ## Emscripten WebGL context driver -/

/-- The context data `emscripten_ctx_data_t`; `ctx` is the integer handle of the
WebGL context, `0` when there is none. -/
structure emscripten_ctx_data_t where
  ctx : Nat
  fb_width : Nat
  fb_height : Nat
deriving DecidableEq

/-- Answer of `emscripten_get_element_css_size`: the result code `r` and the
values `(int)w` and `(int)h` of the two sizes after their conversion to `int`. -/
structure css_size_answer where
  r : Int
  w : Int
  h : Int

/-- Embedding of `gfx_ctx_emscripten_webgl_get_canvas_size`; `width` and `height`
are the values behind the two out-parameters before the call, the result the
values after it.  `is_fullscreen` is the constant `false` of the source. -/
def gfx_ctx_emscripten_webgl_get_canvas_size (EMSCRIPTEN_RESULT_SUCCESS : Int)
    (q : css_size_answer) (width height : Int) : Int × Int :=
  let is_fullscreen := false
  if !is_fullscreen then
    let width := q.w
    let height := q.h
    if q.r ≠ EMSCRIPTEN_RESULT_SUCCESS then (800, 600) else (width, height)
  else (width, height)

/-- The context data and the out-parameters after
`gfx_ctx_emscripten_webgl_check_window`. -/
structure check_window_result where
  emscripten : emscripten_ctx_data_t
  quit : Bool
  resize : Bool
  width : Nat
  height : Nat

/-- Embedding of `gfx_ctx_emscripten_webgl_check_window`. -/
def gfx_ctx_emscripten_webgl_check_window (EMSCRIPTEN_RESULT_SUCCESS : Int)
    (q : css_size_answer) (emscripten : emscripten_ctx_data_t) : check_window_result :=
  let input_width : Int := 0
  let input_height : Int := 0
  let size := gfx_ctx_emscripten_webgl_get_canvas_size EMSCRIPTEN_RESULT_SUCCESS q
    input_width input_height
  let width := to_unsigned size.1
  let height := to_unsigned size.2
  { emscripten := { emscripten with fb_width := width, fb_height := height }
    quit := false, resize := false, width := width, height := height }

/-- The context data after a sequence of `check_window` calls, one per canvas
size answer, oldest first. -/
def check_window_run (EMSCRIPTEN_RESULT_SUCCESS : Int) (emscripten : emscripten_ctx_data_t)
    (qs : List css_size_answer) : emscripten_ctx_data_t :=
  qs.foldl
    (fun e q => (gfx_ctx_emscripten_webgl_check_window EMSCRIPTEN_RESULT_SUCCESS q e).emscripten)
    emscripten

/-- The calls into libc and Emscripten that `init` and `destroy` make. -/
inductive native_call where
  | calloc (result : Nat)
  | emscripten_webgl_init_context_attributes
  | emscripten_webgl_create_context (result : Nat)
  | emscripten_webgl_get_drawing_buffer_size (ctx : Nat)
  | emscripten_webgl_make_context_current (ctx : Nat)
  | emscripten_get_device_pixel_ratio
  | emscripten_webgl_destroy_context (ctx : Nat)
  | free (ptr : Nat)
deriving DecidableEq

/-- Embedding of `gfx_ctx_emscripten_webgl_destroy`: `data` is an address
(`0` is `NULL`), `heap` gives the context data read through an address, the
result lists the native calls in order. -/
def gfx_ctx_emscripten_webgl_destroy (heap : Nat → emscripten_ctx_data_t) (data : Nat) :
    List native_call :=
  if data = 0 then []
  else [native_call.emscripten_webgl_destroy_context (heap data).ctx, native_call.free data]

/-- What the platform answers during `gfx_ctx_emscripten_webgl_init`: the
address returned by `calloc` (`0` on failure), the handle returned by
`emscripten_webgl_create_context` (`0` on failure), and the values of
`(unsigned)(width * dpr)` and `(unsigned)(height * dpr)`. -/
structure webgl_init_env where
  calloc_result : Nat
  create_context_result : Nat
  scaled_width : Nat
  scaled_height : Nat

/-- Return value, heap and native calls of `gfx_ctx_emscripten_webgl_init`. -/
structure webgl_init_result where
  ret : Nat
  heap : Nat → emscripten_ctx_data_t
  calls : List native_call

/-- Embedding of `gfx_ctx_emscripten_webgl_init`.  The label `error` calls
`gfx_ctx_emscripten_webgl_destroy (video_driver)`, on the argument of `init`. -/
def gfx_ctx_emscripten_webgl_init (env : webgl_init_env)
    (heap : Nat → emscripten_ctx_data_t) (video_driver : Nat) : webgl_init_result :=
  let emscripten := env.calloc_result
  let heap :=
    if emscripten = 0 then heap
    else Function.update heap emscripten { ctx := 0, fb_width := 0, fb_height := 0 }
  let calls :=
    [native_call.calloc emscripten, native_call.emscripten_webgl_init_context_attributes]
  if emscripten = 0 then { ret := 0, heap := heap, calls := calls }
  else
    let ctx := env.create_context_result
    let heap := Function.update heap emscripten { heap emscripten with ctx := ctx }
    let calls := calls ++ [native_call.emscripten_webgl_create_context ctx]
    if ctx = 0 then
      { ret := 0, heap := heap
        calls := calls ++ gfx_ctx_emscripten_webgl_destroy heap video_driver }
    else
      let calls := calls ++
        [native_call.emscripten_webgl_get_drawing_buffer_size ctx,
         native_call.emscripten_webgl_make_context_current ctx,
         native_call.emscripten_get_device_pixel_ratio]
      let heap := Function.update heap emscripten
        { heap emscripten with fb_width := env.scaled_width, fb_height := env.scaled_height }
      { ret := emscripten, heap := heap, calls := calls }

/-- The native call destroys a WebGL context. -/
def is_destroy_context : native_call → Bool
  | native_call.emscripten_webgl_destroy_context _ => true
  | _ => false

/-- The native call is a `free`. -/
def is_free : native_call → Bool
  | native_call.free _ => true
  | _ => false
/-- A table with two touches, reached from `wl_zero` by
`touch_handle_down (5, 256, 256)` and `touch_handle_down (7, 512, 768)`. -/
def touch_example : gfx_ctx_wayland_data_t :=
  { wl_zero with
    num_active_touches := 2
    active_touch_positions :=
      Function.update
        (Function.update wl_zero.active_touch_positions 0
          { id := 5, x := 1, y := 1, active := true })
        1 { id := 7, x := 2, y := 3, active := true } }

/-- Embedding of `pointer_handle_leave`: focus and the three buttons are dropped,
and `mouse.surface` becomes `NULL` when it is the surface that is left. -/
def pointer_handle_leave (wl : gfx_ctx_wayland_data_t) (surface : Nat) :
    gfx_ctx_wayland_data_t :=
  { wl with
    input :=
      { wl.input with
        mouse :=
          { focus := false, left := false, right := false, middle := false
            surface := if wl.input.mouse.surface = surface then 0
                       else wl.input.mouse.surface } } }

/-- The two timing modes of `emscripten.h` that the context driver passes to
`emscripten_set_main_loop_timing`; the header is not among the sources. -/
structure em_timing_consts where
  EM_TIMING_SETIMMEDIATE : Int
  EM_TIMING_RAF : Int

/-- The values of the timing modes in `emscripten.h`: `EM_TIMING_RAF = 1` and
`EM_TIMING_SETIMMEDIATE = 2`. -/
def emscripten_timing_consts : em_timing_consts :=
  { EM_TIMING_SETIMMEDIATE := 2, EM_TIMING_RAF := 1 }

/-- The call `emscripten_set_main_loop_timing (mode, value)`. -/
structure main_loop_timing where
  mode : Int
  value : Int
deriving DecidableEq

/-- Embedding of `gfx_ctx_emscripten_webgl_swap_interval`: `vsync` is the global
flag, the result is the call to `emscripten_set_main_loop_timing` it makes. -/
def gfx_ctx_emscripten_webgl_swap_interval (c : em_timing_consts) (vsync : Bool)
    (interval : Int) : main_loop_timing :=
  if interval = 0 ∨ (!vsync) = true then
    { mode := c.EM_TIMING_SETIMMEDIATE, value := 0 }
  else { mode := c.EM_TIMING_RAF, value := interval }

/-- The global flag `vsync` after `set_vsync`, and the call to
`emscripten_set_main_loop_timing` that `set_vsync` makes. -/
structure set_vsync_result where
  vsync : Bool
  timing : main_loop_timing

/-- Embedding of `set_vsync`: `vsync = (enabled == 1);` followed by
`gfx_ctx_emscripten_webgl_swap_interval (NULL, 1)`, which reads the flag just
written.  The first `Bool` is the global flag before the call, which the
function overwrites without reading it. -/
def set_vsync (c : em_timing_consts) (_vsync_before : Bool) (enabled : Int) :
    set_vsync_result :=
  let vsync := decide (enabled = 1)
  { vsync := vsync, timing := gfx_ctx_emscripten_webgl_swap_interval c vsync 1 }

/-! ## Splash screen: `create_shm_buffer`, `shm_buffer_paint_checkerboard`,
`draw_splash_screen` -/

/-- The result of an operation on `int` (32 bit): the value when it is
representable, `-(2^31) <= v < 2^31`, and a fault when the operation overflows
(undefined behaviour).  `Int.negSucc n` is `-(n + 1)`. -/
def int_checked : Int → Option Int
  | Int.ofNat n => if n < 2 ^ 31 then some (Int.ofNat n) else none
  | Int.negSucc n => if n < 2 ^ 31 then some (Int.negSucc n) else none

/-- A `for (i = 0; i < n; i++)` loop whose body may fault, with `fuel` iterations
left at index `i`. -/
def for_range {σ : Type} (body : Nat → σ → Option σ) : Nat → Nat → σ → Option σ
  | 0, _, s => some s
  | fuel + 1, i, s =>
    match body i s with
    | none => none
    | some s' => for_range body fuel (i + 1) s'

/-- The fields of `shm_buffer_t`: the `wl_buffer`, the mapped memory `data` read
as 32-bit pixels (by pixel index) and its size `data_size` in bytes. -/
structure shm_buffer_t where
  wl_buffer : Nat
  data : Nat → Nat
  data_size : Int

/-- What the platform answers during `create_shm_buffer`: the descriptor `fd` of
the backing file (negative on failure), whether `mmap` returned `MAP_FAILED`, the
contents of the fresh mapping, the address returned by `calloc` (`0` on failure)
and the `wl_buffer` created from the pool. -/
structure shm_env where
  fd : Int
  mmap_failed : Bool
  mapped : Nat → Nat
  calloc_result : Nat
  wl_buffer : Nat
  surface_has_damage_buffer : Bool

/-- Embedding of `create_shm_buffer`: a fault is `none`, a returned `NULL` is
`some none`.  `stride = width * 4` and `size = stride * height` are `int`
products; `buffer = calloc (...)` is used without a test. -/
def create_shm_buffer (env : shm_env) (width height : Int) : Option (Option shm_buffer_t) :=
  match int_checked (width * 4) with
  | none => none
  | some stride =>
    match int_checked (stride * height) with
    | none => none
    | some size =>
      if env.fd < 0 then some none
      else if env.mmap_failed then some none
      else if env.calloc_result = 0 then none
      else some (some { wl_buffer := env.wl_buffer, data := env.mapped, data_size := size })

/-- The pixels of the buffer and the indices written so far, in order. -/
structure paint_state where
  pixels : Nat → Nat
  written : List Nat

/-- The store `pixels[off] = color`. -/
def paint_store (off color : Nat) (st : paint_state) : paint_state :=
  { pixels := Function.update st.pixels off color, written := st.written ++ [off] }

/-- The colour of cell `(x, y)`: `(x & chk) ^ (y & chk) ? fg : bg`. -/
def checkerboard_color (chk bg fg : Nat) (x y : Nat) : Nat :=
  if (x &&& chk) ^^^ (y &&& chk) ≠ 0 then fg else bg

/-- The body of the innermost loop of `shm_buffer_paint_checkerboard`:
`off = x * scale + sx + (y * scale + sy) * stride; pixels[off] = color;` with
every `int` operation checked.  The value converted to `size_t` is not negative
(the body runs for `0 <= x`, `0 <= sx`, `0 <= y`, `0 <= sy` only). -/
def paint_pixel (scale stride : Int) (color : Nat) (x y sx sy : Nat) (st : paint_state) :
    Option paint_state :=
  (int_checked ((x : Int) * scale)).bind fun a =>
  (int_checked (a + (sx : Int))).bind fun b =>
  (int_checked ((y : Int) * scale)).bind fun c =>
  (int_checked (c + (sy : Int))).bind fun d =>
  (int_checked (d * stride)).bind fun e =>
  (int_checked (b + e)).bind fun off =>
  some (paint_store off.toNat color st)

/-- Embedding of `shm_buffer_paint_checkerboard`.  `buffer` is `none` for a
`NULL` pointer, whose `data` the first statement reads: a fault.  The loops run
`y < height`, `x < width`, `sx < scale`, `sy < scale`. -/
def shm_buffer_paint_checkerboard (buffer : Option shm_buffer_t)
    (width height scale : Int) (chk bg fg : Nat) : Option paint_state :=
  match buffer with
  | none => none
  | some b =>
    match int_checked (width * scale) with
    | none => none
    | some stride =>
      for_range (fun y =>
        for_range (fun x =>
          for_range (fun sx =>
            for_range (fun sy =>
              paint_pixel scale stride (checkerboard_color chk bg fg x y) x y sx sy)
              scale.toNat 0)
            scale.toNat 0)
          width.toNat 0)
        height.toNat 0 { pixels := b.data, written := [] }

/-- The Wayland requests of `draw_splash_screen`. -/
inductive wl_request where
  | wl_surface_attach (surface wl_buffer : Nat)
  | wl_surface_set_buffer_scale (surface : Nat) (scale : Int)
  | wl_surface_damage_buffer (surface : Nat) (width height : Int)
  | wl_surface_commit (surface : Nat)
deriving DecidableEq

/-- What `draw_splash_screen` leaves behind when it returns: the buffer it
created, the pixels and the indices it painted, and its Wayland requests. -/
structure splash_result where
  buffer : shm_buffer_t
  painted : paint_state
  requests : List wl_request

/-- Embedding of `draw_splash_screen`.  The result of `create_shm_buffer` goes to
`shm_buffer_paint_checkerboard` and to `wl_surface_attach` without a test for
`NULL`. -/
def draw_splash_screen (env : shm_env) (wl : gfx_ctx_wayland_data_t) : Option splash_result :=
  match int_checked (wl.width * wl.buffer_scale),
      int_checked (wl.height * wl.buffer_scale) with
  | some w, some h =>
    match create_shm_buffer env w h with
    | none => none
    | some buffer =>
      match shm_buffer_paint_checkerboard buffer wl.width wl.height wl.buffer_scale
          16 0xffbcbcbc 0xff8e8e8e with
      | none => none
      | some st =>
        match buffer with
        | none => none
        | some b =>
          some
            { buffer := b, painted := st
              requests :=
                [wl_request.wl_surface_attach wl.surface b.wl_buffer,
                 wl_request.wl_surface_set_buffer_scale wl.surface wl.buffer_scale]
                ++ (if env.surface_has_damage_buffer then
                      [wl_request.wl_surface_damage_buffer wl.surface w h]
                    else [])
                ++ [wl_request.wl_surface_commit wl.surface] }
  | _, _ => none

/-- The cells `(y, (x, (sx, sy)))` of the four loops of the checkerboard, in the
order in which the loops visit them. -/
def paint_cells (W H s : Nat) : List (Nat × Nat × Nat × Nat) :=
  List.product (List.range H)
    (List.product (List.range W) (List.product (List.range s) (List.range s)))

/-- The pixel index of a cell for the row length `n`: `x * s + sx + (y * s + sy) * n`. -/
def paint_offset (s n : Nat) (c : Nat × Nat × Nat × Nat) : Nat :=
  c.2.1 * s + c.2.2.1 + (c.1 * s + c.2.2.2) * n


/-! # Theorems -/

/-! ## Loop lemmas for the touch listeners -/

theorem touch_handle_cancel_loop_apply (fuel i : Nat) (t : Nat → touch_pos) (k : Nat) :
    touch_handle_cancel_loop fuel i t k
      = if i ≤ k ∧ k < i + fuel then touch_cleared else t k := by
  induction fuel generalizing i t with
  | zero =>
    simp only [touch_handle_cancel_loop]
    split_ifs <;> first | rfl | (exfalso; omega)
  | succ n ih =>
    simp only [touch_handle_cancel_loop, ih, Function.update_apply]
    split_ifs <;> first | rfl | (exfalso; omega)

theorem touch_handle_motion_loop_spec (id x y : Int) (fuel i : Nat)
    (wl : gfx_ctx_wayland_data_t) :
    (touch_handle_motion_loop id x y fuel i wl).input = wl.input ∧
    (touch_handle_motion_loop id x y fuel i wl).num_active_touches = wl.num_active_touches ∧
    ∀ k, (touch_handle_motion_loop id x y fuel i wl).active_touch_positions k
      = if i ≤ k ∧ k < i + fuel then
          if touch_matches id (wl.active_touch_positions k) = true then
            { wl.active_touch_positions k with
              x := to_unsigned (wl_fixed_to_int x)
              y := to_unsigned (wl_fixed_to_int y) }
          else wl.active_touch_positions k
        else wl.active_touch_positions k := by
  induction fuel generalizing i wl with
  | zero =>
    refine ⟨rfl, rfl, fun k => ?_⟩
    simp only [touch_handle_motion_loop]
    split_ifs <;> first | rfl | (exfalso; omega)
  | succ n ih =>
    unfold touch_handle_motion_loop
    by_cases hm : touch_matches id (wl.active_touch_positions i) = true
    · have hm' := hm
      unfold touch_matches at hm'
      rw [if_pos hm']
      obtain ⟨h1, h2, h3⟩ := ih (i + 1)
        { wl with
          active_touch_positions := Function.update wl.active_touch_positions i
            { wl.active_touch_positions i with
              x := to_unsigned (wl_fixed_to_int x)
              y := to_unsigned (wl_fixed_to_int y) } }
      refine ⟨h1, h2, fun k => ?_⟩
      rw [h3 k]
      by_cases hk : k = i
      · subst hk
        have h4 : ¬ (k + 1 ≤ k ∧ k < k + 1 + n) := by omega
        have h5 : k ≤ k ∧ k < k + (n + 1) := by omega
        simp only [if_neg h4, if_pos h5, if_pos hm, Function.update_same]
      · simp only [Function.update_apply, if_neg hk]
        split_ifs <;> first | rfl | (exfalso; omega)
    · have hm' := hm
      unfold touch_matches at hm'
      rw [if_neg hm']
      obtain ⟨h1, h2, h3⟩ := ih (i + 1) wl
      refine ⟨h1, h2, fun k => ?_⟩
      rw [h3 k]
      by_cases hk : k = i
      · subst hk
        simp only [if_neg hm]
        split_ifs <;> rfl
      · split_ifs <;> first | rfl | (exfalso; omega)

theorem touch_handle_up_loop_spec (id : Int) (fuel i : Nat)
    (wl : gfx_ctx_wayland_data_t) :
    (touch_handle_up_loop id fuel i wl).input = wl.input ∧
    (touch_handle_up_loop id fuel i wl).num_active_touches
      = wl.num_active_touches
        - (((List.range' i fuel).map wl.active_touch_positions).countP (touch_matches id) : Nat) ∧
    ∀ k, (touch_handle_up_loop id fuel i wl).active_touch_positions k
      = if i ≤ k ∧ k < i + fuel then
          if touch_matches id (wl.active_touch_positions k) = true then touch_cleared
          else wl.active_touch_positions k
        else wl.active_touch_positions k := by
  induction fuel generalizing i wl with
  | zero =>
    refine ⟨rfl, by simp [touch_handle_up_loop], fun k => ?_⟩
    simp only [touch_handle_up_loop]
    split_ifs <;> first | rfl | (exfalso; omega)
  | succ n ih =>
    unfold touch_handle_up_loop
    have hcong : ∀ (f : Nat → touch_pos), (∀ k, k ≠ i → f k = wl.active_touch_positions k) →
        (List.range' (i + 1) n).map f = (List.range' (i + 1) n).map wl.active_touch_positions := by
      intro f hf
      apply List.map_congr_left
      intro a ha
      rw [List.mem_range'_1] at ha
      exact hf a (by omega)
    by_cases hm : touch_matches id (wl.active_touch_positions i) = true
    · have hm' := hm
      unfold touch_matches at hm'
      rw [if_pos hm']
      obtain ⟨h1, h2, h3⟩ := ih (i + 1)
        { wl with
          active_touch_positions := Function.update wl.active_touch_positions i touch_cleared
          num_active_touches := wl.num_active_touches - 1 }
      refine ⟨h1, ?_, fun k => ?_⟩
      · rw [h2]
        simp only []
        rw [hcong _ (fun k hk => by simp [Function.update_apply, hk])]
        rw [List.range'_succ, List.map_cons, List.countP_cons]
        simp only [hm, if_true]
        push_cast
        ring
      · rw [h3 k]
        by_cases hk : k = i
        · subst hk
          have h4 : ¬ (k + 1 ≤ k ∧ k < k + 1 + n) := by omega
          have h5 : k ≤ k ∧ k < k + (n + 1) := by omega
          simp only [if_neg h4, if_pos h5, if_pos hm, Function.update_same]
        · simp only [Function.update_apply, if_neg hk]
          split_ifs <;> first | rfl | (exfalso; omega)
    · have hm' := hm
      unfold touch_matches at hm'
      rw [if_neg hm']
      obtain ⟨h1, h2, h3⟩ := ih (i + 1) wl
      refine ⟨h1, ?_, fun k => ?_⟩
      · rw [h2, List.range'_succ, List.map_cons, List.countP_cons]
        simp [hm]
      · rw [h3 k]
        by_cases hk : k = i
        · subst hk
          simp only [if_neg hm]
          split_ifs <;> rfl
        · split_ifs <;> first | rfl | (exfalso; omega)


theorem reorder_touches_inner_spec (MAX_TOUCHES i : Nat) (t : Nat → touch_pos)
    (fuel j : Nat) (hj : j + fuel = MAX_TOUCHES) :
    (reorder_touches_inner MAX_TOUCHES i fuel j t = reorder_inner_result.exhausted ∧
      ∀ m, j ≤ m → m < MAX_TOUCHES → (t m).active = false) ∨
    (∃ m, j ≤ m ∧ m < MAX_TOUCHES ∧ (t m).active = true ∧
      (∀ k, j ≤ k → k < m → (t k).active = false) ∧
      reorder_touches_inner MAX_TOUCHES i fuel j t
        = reorder_inner_result.moved
            (Function.update (Function.update t i (t m)) m touch_cleared)) := by
  induction fuel generalizing j with
  | zero =>
    left
    exact ⟨rfl, fun m h1 h2 => by omega⟩
  | succ n ih =>
    unfold reorder_touches_inner
    by_cases hact : (t j).active = true
    · right
      refine ⟨j, le_refl _, by omega, hact, fun k h1 h2 => by omega, ?_⟩
      rw [if_pos hact]
    · rw [if_neg hact, if_neg (by omega : ¬ j = MAX_TOUCHES)]
      have hina : (t j).active = false := by simpa using hact
      rcases ih (j + 1) (by omega) with ⟨h1, h2⟩ | ⟨m, h1, h2, h3, h4, h5⟩
      · left
        refine ⟨h1, fun m hm1 hm2 => ?_⟩
        by_cases hmj : m = j
        · subst hmj; exact hina
        · exact h2 m (by omega) hm2
      · right
        refine ⟨m, by omega, h2, h3, fun k hk1 hk2 => ?_, h5⟩
        by_cases hkj : k = j
        · subst hkj; exact hina
        · exact h4 k (by omega) hk2

theorem range_split_two (n i j : Nat) (hij : i < j) (hj : j < n) :
    List.range n
      = List.range' 0 i ++ (i :: List.range' (i + 1) (j - (i + 1)))
          ++ (j :: List.range' (j + 1) (n - (j + 1))) := by
  apply List.ext_getElem
  · simp; omega
  · intro k h1 h2
    simp only [List.getElem_range]
    by_cases hk1 : k < i
    · rw [List.getElem_append_left (by simp; omega), List.getElem_append_left (by simpa using hk1)]
      simp
    · by_cases hk2 : k < j
      · rw [List.getElem_append_left (by simp; omega),
          List.getElem_append_right (by simpa using hk1)]
        simp only [List.length_range']
        by_cases hk3 : k = i
        · subst hk3; simp
        · obtain ⟨d, hd⟩ : ∃ d, k - i = d + 1 := ⟨k - i - 1, by omega⟩
          simp only [hd, List.getElem_cons_succ, List.getElem_range']
          omega
      · rw [List.getElem_append_right (by simp; omega)]
        simp only [List.length_append, List.length_range', List.length_cons]
        by_cases hk3 : k = j
        · subst hk3
          have : k - (i + (k - (i + 1) + 1)) = 0 := by omega
          simp [this]
        · obtain ⟨d, hd⟩ : ∃ d, k - (i + (j - (i + 1) + 1)) = d + 1 :=
            ⟨k - j - 1, by omega⟩
          simp only [hd, List.getElem_cons_succ, List.getElem_range']
          omega

theorem active_list_move (MAX_TOUCHES i j : Nat) (t : Nat → touch_pos)
    (hij : i < j) (hj : j < MAX_TOUCHES) (hi : (t i).active = false)
    (hmid : ∀ k, i < k → k < j → (t k).active = false) (hjact : (t j).active = true) :
    active_list MAX_TOUCHES (Function.update (Function.update t i (t j)) j touch_cleared)
      = active_list MAX_TOUCHES t := by
  have hA : ∀ (s n : Nat), (∀ a, s ≤ a → a < s + n → a ≠ i ∧ a ≠ j) →
      (List.range' s n).map (Function.update (Function.update t i (t j)) j touch_cleared)
        = (List.range' s n).map t := by
    intro s n h
    apply List.map_congr_left
    intro a ha
    rw [List.mem_range'_1] at ha
    obtain ⟨h1, h2⟩ := h a ha.1 ha.2
    simp [Function.update_apply, h1, h2]
  have hB : ((List.range' (i + 1) (j - (i + 1))).map t).filter (fun s => s.active) = [] := by
    rw [List.filter_eq_nil_iff]
    intro a ha
    rw [List.mem_map] at ha
    obtain ⟨k, hk, rfl⟩ := ha
    rw [List.mem_range'_1] at hk
    simp [hmid k (by omega) (by omega)]
  unfold active_list touch_slots
  rw [range_split_two MAX_TOUCHES i j hij hj]
  simp only [List.map_append, List.map_cons, List.filter_append, List.filter_cons]
  rw [hA 0 i (fun a _ h => by omega), hA (i + 1) _ (fun a h1 h2 => by omega),
    hA (j + 1) _ (fun a h1 h2 => by omega), hB]
  have e1 : Function.update (Function.update t i (t j)) j touch_cleared i = t j := by
    simp [Function.update_apply, Nat.ne_of_lt hij]
  have e2 : Function.update (Function.update t i (t j)) j touch_cleared j = touch_cleared := by
    simp
  rw [e1, e2]
  simp [hi, hjact, touch_cleared]

theorem reorder_touches_loop_spec (MAX_TOUCHES : Nat) (fuel i : Nat) (t : Nat → touch_pos)
    (hi : i + fuel = MAX_TOUCHES)
    (hpre : ∀ k, k < i → (t k).active = false →
      ∀ m, k < m → m < MAX_TOUCHES → (t m).active = false) :
    active_list MAX_TOUCHES (reorder_touches_loop MAX_TOUCHES fuel i t)
        = active_list MAX_TOUCHES t ∧
      touch_packed MAX_TOUCHES (reorder_touches_loop MAX_TOUCHES fuel i t) := by
  induction fuel generalizing i t with
  | zero =>
    refine ⟨rfl, fun k hk => ?_⟩
    exact hpre k (by omega)
  | succ n ih =>
    unfold reorder_touches_loop
    by_cases hact : (t i).active = true
    · simp only [hact, Bool.not_true, Bool.false_eq_true, if_false]
      apply ih (i + 1) t (by omega)
      intro k hk hk2
      by_cases hki : k = i
      · subst hki; rw [hact] at hk2; exact absurd hk2 (by simp)
      · exact hpre k (by omega) hk2
    · have hina : (t i).active = false := by simpa using hact
      simp only [hina, Bool.not_false, if_true]
      rcases reorder_touches_inner_spec MAX_TOUCHES i t (MAX_TOUCHES - (i + 1)) (i + 1) (by omega)
        with ⟨h1, h2⟩ | ⟨m, h1, h2, h3, h4, h5⟩
      · rw [h1]
        apply ih (i + 1) t (by omega)
        intro k hk hk2
        by_cases hki : k = i
        · subst hki
          intro m hm1 hm2
          exact h2 m (by omega) hm2
        · exact hpre k (by omega) hk2
      · rw [h5]
        have hmove := active_list_move MAX_TOUCHES i m t (by omega) h2 hina
          (fun k hk1 hk2 => h4 k (by omega) hk2) h3
        have := ih (i + 1) (Function.update (Function.update t i (t m)) m touch_cleared)
          (by omega) (by
            intro k hk hk2
            by_cases hki : k = i
            · subst hki
              have : (Function.update (Function.update t k (t m)) m touch_cleared k) = t m := by
                simp [Function.update_apply, Nat.ne_of_lt (by omega : k < m)]
              rw [this, h3] at hk2
              exact absurd hk2 (by simp)
            · have hkm : k ≠ m := by omega
              have : (Function.update (Function.update t i (t m)) m touch_cleared k) = t k := by
                simp [Function.update_apply, hki, hkm]
              rw [this] at hk2
              have := hpre k (by omega) hk2 m (by omega) h2
              rw [h3] at this
              exact absurd this (by simp))
        exact ⟨this.1.trans hmove, this.2⟩

theorem active_list_succ (n : Nat) (t : Nat → touch_pos) :
    active_list (n + 1) t
      = active_list n t ++ (if (t n).active = true then [t n] else []) := by
  unfold active_list touch_slots
  rw [List.range_succ, List.map_append, List.filter_append]
  by_cases h : (t n).active = true <;> simp [h]

theorem num_active_slots_le (n : Nat) (t : Nat → touch_pos) : num_active_slots n t ≤ n := by
  unfold num_active_slots active_list touch_slots
  calc ((List.map t (List.range n)).filter (fun s => s.active)).length
      ≤ (List.map t (List.range n)).length := List.length_filter_le _ _
    _ = n := by simp

theorem active_iff_lt_of_packed (MAX_TOUCHES : Nat) (t : Nat → touch_pos)
    (hp : touch_packed MAX_TOUCHES t) :
    ∀ i, i < MAX_TOUCHES → ((t i).active = true ↔ i < num_active_slots MAX_TOUCHES t) := by
  induction MAX_TOUCHES with
  | zero => intro i hi; omega
  | succ n ih =>
    have hp' : touch_packed n t := fun k hk hk2 m hm1 hm2 => hp k (by omega) hk2 m hm1 (by omega)
    have ih' := ih hp'
    have hle := num_active_slots_le n t
    have hlen : num_active_slots (n + 1) t
        = num_active_slots n t + (if (t n).active = true then 1 else 0) := by
      unfold num_active_slots
      rw [active_list_succ, List.length_append]
      by_cases h : (t n).active = true <;> simp [h]
    intro i hi
    by_cases hn : (t n).active = true
    · have hall : ∀ k, k < n → (t k).active = true := by
        intro k hk
        by_contra hc
        have hc' : (t k).active = false := by simpa using hc
        have := hp k (by omega) hc' n hk (by omega)
        rw [hn] at this
        exact absurd this (by simp)
      have hfull : num_active_slots n t = n := by
        rcases Nat.eq_zero_or_pos n with h0 | hpos
        · omega
        · have := (ih' (n - 1) (by omega)).1 (hall (n - 1) (by omega))
          omega
      rw [hlen, if_pos hn, hfull]
      by_cases hin : i = n
      · subst hin; simp [hn]
      · simp [hall i (by omega)]; omega
    · rw [hlen, if_neg hn]
      by_cases hin : i = n
      · subst hin
        constructor
        · intro h; exact absurd h hn
        · intro h; omega
      · exact ih' i (by omega)


theorem touch_inv_of_packed (MAX_TOUCHES : Nat) (wl : gfx_ctx_wayland_data_t)
    (hp : touch_packed MAX_TOUCHES wl.active_touch_positions)
    (hn : wl.num_active_touches = (num_active_slots MAX_TOUCHES wl.active_touch_positions : Int)) :
    touch_inv MAX_TOUCHES wl := by
  have hle := num_active_slots_le MAX_TOUCHES wl.active_touch_positions
  refine ⟨by omega, by omega, fun i hi => ?_⟩
  rw [active_iff_lt_of_packed MAX_TOUCHES _ hp i hi, hn]
  omega

theorem touch_packed_of_inv (MAX_TOUCHES : Nat) (wl : gfx_ctx_wayland_data_t)
    (h : touch_inv MAX_TOUCHES wl) : touch_packed MAX_TOUCHES wl.active_touch_positions := by
  obtain ⟨h0, h1, h2⟩ := h
  intro k hk hk2 m hm1 hm2
  have hnk : ¬ ((k : Int) < wl.num_active_touches) := by
    intro hc
    have := (h2 k hk).2 hc
    rw [hk2] at this
    exact absurd this (by simp)
  have hnm : ¬ ((m : Int) < wl.num_active_touches) := by omega
  by_contra hc
  have hc' : (wl.active_touch_positions m).active = true := by simpa using hc
  exact hnm ((h2 m hm2).1 hc')

theorem num_active_slots_of_inv (MAX_TOUCHES : Nat) (wl : gfx_ctx_wayland_data_t)
    (h : touch_inv MAX_TOUCHES wl) :
    wl.num_active_touches = (num_active_slots MAX_TOUCHES wl.active_touch_positions : Int) := by
  have hp := touch_packed_of_inv MAX_TOUCHES wl h
  have hiff := active_iff_lt_of_packed MAX_TOUCHES _ hp
  have hle := num_active_slots_le MAX_TOUCHES wl.active_touch_positions
  obtain ⟨h0, h1, h2⟩ := h
  by_contra hne
  rcases lt_or_gt_of_ne hne with hlt | hgt
  · -- the counter is smaller: slot `num_active_touches` is a witness
    have hi : wl.num_active_touches.toNat < MAX_TOUCHES := by omega
    have e : ((wl.num_active_touches.toNat : Nat) : Int) = wl.num_active_touches :=
      Int.toNat_of_nonneg h0
    have a1 := (hiff _ hi).2 (by omega)
    have a2 := (h2 _ hi).1 a1
    omega
  · have hi : num_active_slots MAX_TOUCHES wl.active_touch_positions < MAX_TOUCHES := by omega
    have a1 := (h2 _ hi).2 (by omega)
    have a2 := (hiff _ hi).1 a1
    omega

theorem touch_handle_down_loop_spec (MAX_TOUCHES : Nat) (wl : gfx_ctx_wayland_data_t)
    (id x y : Int) (fuel i : Nat) (hi : i + fuel = MAX_TOUCHES)
    (hex : ∃ m, i ≤ m ∧ m < MAX_TOUCHES ∧ (wl.active_touch_positions m).active = false)
    (h0 : 0 ≤ wl.num_active_touches) (h1 : wl.num_active_touches < (MAX_TOUCHES : Int)) :
    touch_handle_down_loop MAX_TOUCHES wl id x y fuel i
      = some { wl with
          active_touch_positions :=
            Function.update wl.active_touch_positions wl.num_active_touches.toNat
              { active := true, id := id,
                x := to_unsigned (wl_fixed_to_int x),
                y := to_unsigned (wl_fixed_to_int y) }
          num_active_touches := wl.num_active_touches + 1 } := by
  induction fuel generalizing i with
  | zero =>
    obtain ⟨m, hm1, hm2, _⟩ := hex
    omega
  | succ n ih =>
    unfold touch_handle_down_loop
    by_cases hact : (wl.active_touch_positions i).active = true
    · simp only [hact, Bool.not_true, Bool.false_eq_true, if_false]
      apply ih (i + 1) (by omega)
      obtain ⟨m, hm1, hm2, hm3⟩ := hex
      refine ⟨m, ?_, hm2, hm3⟩
      by_contra hc
      have : m = i := by omega
      subst this
      rw [hact] at hm3
      exact absurd hm3 (by simp)
    · have hina : (wl.active_touch_positions i).active = false := by simpa using hact
      simp only [hina, Bool.not_false, if_true]
      rw [if_pos ⟨h0, h1⟩]

theorem touch_handle_down_inv (MAX_TOUCHES : Nat) (wl : gfx_ctx_wayland_data_t)
    (id x y : Int) (S : Int → Prop) (h : touch_inv MAX_TOUCHES wl)
    (hS : active_ids_in MAX_TOUCHES wl S) :
    ∃ wl', touch_handle_down MAX_TOUCHES wl id x y = some wl' ∧ touch_inv MAX_TOUCHES wl' ∧
      active_ids_in MAX_TOUCHES wl' (fun a => S a ∨ a = id) := by
  unfold touch_handle_down
  by_cases hlt : wl.num_active_touches < (MAX_TOUCHES : Int)
  · rw [if_pos hlt]
    obtain ⟨h0, h1, h2⟩ := h
    have e : ((wl.num_active_touches.toNat : Nat) : Int) = wl.num_active_touches :=
      Int.toNat_of_nonneg h0
    have hn : wl.num_active_touches.toNat < MAX_TOUCHES := by omega
    have hfree : (wl.active_touch_positions wl.num_active_touches.toNat).active = false := by
      by_contra hc
      have hc' : (wl.active_touch_positions wl.num_active_touches.toNat).active = true := by
        simpa using hc
      have := (h2 _ hn).1 hc'
      omega
    rw [touch_handle_down_loop_spec MAX_TOUCHES wl id x y MAX_TOUCHES 0 (by omega)
      ⟨_, Nat.zero_le _, hn, hfree⟩ h0 hlt]
    refine ⟨_, rfl, ⟨by simp only []; omega, by simp only []; omega, fun i hi => ?_⟩,
      fun k hk hk2 => ?_⟩
    · simp only [Function.update_apply]
      by_cases hin : i = wl.num_active_touches.toNat
      · rw [if_pos hin]
        simp only [true_iff]
        omega
      · rw [if_neg hin, h2 i hi]
        omega
    · simp only [Function.update_apply] at hk2 ⊢
      by_cases hin : k = wl.num_active_touches.toNat
      · rw [if_pos hin]
        right; rfl
      · rw [if_neg hin] at hk2 ⊢
        left; exact hS k hk hk2
  · rw [if_neg hlt]
    exact ⟨wl, rfl, h, fun k hk hk2 => Or.inl (hS k hk hk2)⟩

theorem filter_active_map_clear (id : Int) (l : List touch_pos) :
    (l.filter (fun s => s.active)).length
      = l.countP (touch_matches id)
        + ((l.map (fun s => if touch_matches id s = true then touch_cleared else s)).filter
            (fun s => s.active)).length := by
  have hcl : touch_cleared.active = false := rfl
  induction l with
  | nil => simp
  | cons a l ih =>
    by_cases hm : touch_matches id a = true
    · have ha : a.active = true := by
        unfold touch_matches at hm
        simp only [Bool.and_eq_true] at hm
        exact hm.1
      rw [List.filter_cons, if_pos ha, List.map_cons, if_pos hm, List.filter_cons,
        List.countP_cons, if_pos hm, List.length_cons, ih]
      simp only [hcl, Bool.false_eq_true, if_false]
      omega
    · rw [List.map_cons, if_neg hm, List.countP_cons, if_neg hm]
      by_cases ha : a.active = true
      · rw [List.filter_cons, if_pos ha, List.filter_cons, if_pos ha, List.length_cons,
          List.length_cons, ih]
        omega
      · rw [List.filter_cons, if_neg ha, List.filter_cons, if_neg ha, ih]
        omega

theorem touch_handle_up_inv (MAX_TOUCHES : Nat) (wl : gfx_ctx_wayland_data_t)
    (id : Int) (S : Int → Prop) (h : touch_inv MAX_TOUCHES wl)
    (hS : active_ids_in MAX_TOUCHES wl S) :
    touch_inv MAX_TOUCHES (touch_handle_up MAX_TOUCHES wl id) ∧
      active_ids_in MAX_TOUCHES (touch_handle_up MAX_TOUCHES wl id) (fun a => S a ∧ a ≠ id) := by
  obtain ⟨hu1, hu2, hu3⟩ := touch_handle_up_loop_spec id MAX_TOUCHES 0 wl
  have hslots : touch_slots MAX_TOUCHES
        (touch_handle_up_loop id MAX_TOUCHES 0 wl).active_touch_positions
      = (touch_slots MAX_TOUCHES wl.active_touch_positions).map
          (fun s => if touch_matches id s = true then touch_cleared else s) := by
    unfold touch_slots
    rw [List.map_map]
    apply List.map_congr_left
    intro a ha
    rw [List.mem_range] at ha
    rw [hu3 a, if_pos ⟨Nat.zero_le _, by omega⟩]
    rfl
  have hcount : (touch_handle_up_loop id MAX_TOUCHES 0 wl).num_active_touches
      = (num_active_slots MAX_TOUCHES
          (touch_handle_up_loop id MAX_TOUCHES 0 wl).active_touch_positions : Int) := by
    rw [hu2, num_active_slots_of_inv MAX_TOUCHES wl h]
    unfold num_active_slots active_list
    rw [hslots, filter_active_map_clear id (touch_slots MAX_TOUCHES wl.active_touch_positions),
      ← List.range_eq_range']
    unfold touch_slots
    push_cast
    omega
  have hids : ∀ k, k < MAX_TOUCHES →
      ((touch_handle_up_loop id MAX_TOUCHES 0 wl).active_touch_positions k).active = true →
      S ((touch_handle_up_loop id MAX_TOUCHES 0 wl).active_touch_positions k).id ∧
        ((touch_handle_up_loop id MAX_TOUCHES 0 wl).active_touch_positions k).id ≠ id := by
    intro k hk hk2
    rw [hu3 k, if_pos ⟨Nat.zero_le _, by omega⟩] at hk2 ⊢
    by_cases hm : touch_matches id (wl.active_touch_positions k) = true
    · rw [if_pos hm] at hk2
      exact absurd hk2 (by simp [touch_cleared])
    · rw [if_neg hm] at hk2 ⊢
      refine ⟨hS k hk hk2, fun hc => hm ?_⟩
      unfold touch_matches
      simp [hk2, hc]
  have hmem : ∀ (t : Nat → touch_pos) (k : Nat), k < MAX_TOUCHES → (t k).active = true →
      t k ∈ active_list MAX_TOUCHES t := by
    intro t k hk hk2
    unfold active_list touch_slots
    rw [List.mem_filter]
    exact ⟨List.mem_map.2 ⟨k, List.mem_range.2 hk, rfl⟩, hk2⟩
  have hmem' : ∀ (t : Nat → touch_pos) (s : touch_pos), s ∈ active_list MAX_TOUCHES t →
      ∃ m, m < MAX_TOUCHES ∧ t m = s ∧ (t m).active = true := by
    intro t s hs
    unfold active_list touch_slots at hs
    rw [List.mem_filter, List.mem_map] at hs
    obtain ⟨⟨m, hm1, hm2⟩, hs2⟩ := hs
    exact ⟨m, List.mem_range.1 hm1, hm2, by rw [hm2]; exact hs2⟩
  unfold touch_handle_up reorder_touches
  by_cases hz : (touch_handle_up_loop id MAX_TOUCHES 0 wl).num_active_touches = 0
  · rw [if_pos hz]
    refine ⟨touch_inv_of_packed MAX_TOUCHES _ ?_ hcount, fun k hk hk2 => hids k hk hk2⟩
    intro k hk hk2 m hm1 hm2
    by_contra hc
    have hc' : ((touch_handle_up_loop id MAX_TOUCHES 0 wl).active_touch_positions m).active
        = true := by simpa using hc
    have hmm := hmem _ m hm2 hc'
    have hlen : (active_list MAX_TOUCHES
        (touch_handle_up_loop id MAX_TOUCHES 0 wl).active_touch_positions).length = 0 := by
      have := hcount
      rw [hz] at this
      unfold num_active_slots at this
      omega
    rw [List.length_eq_zero] at hlen
    rw [hlen] at hmm
    exact absurd hmm (List.not_mem_nil _)
  · rw [if_neg hz]
    obtain ⟨hr1, hr2⟩ := reorder_touches_loop_spec MAX_TOUCHES MAX_TOUCHES 0
      (touch_handle_up_loop id MAX_TOUCHES 0 wl).active_touch_positions (by omega)
      (fun k hk => by omega)
    refine ⟨touch_inv_of_packed MAX_TOUCHES _ hr2 ?_, fun k hk hk2 => ?_⟩
    · simp only []
      rw [hcount]
      unfold num_active_slots
      rw [hr1]
    · simp only [] at hk2 ⊢
      have hmm := hmem _ k hk hk2
      rw [hr1] at hmm
      obtain ⟨m, hm1, hm2, hm3⟩ := hmem' _ _ hmm
      rw [← hm2]
      exact hids m hm1 hm3


theorem touch_handle_motion_inv (MAX_TOUCHES : Nat) (wl : gfx_ctx_wayland_data_t)
    (id x y : Int) (S : Int → Prop) (h : touch_inv MAX_TOUCHES wl)
    (hS : active_ids_in MAX_TOUCHES wl S) :
    touch_inv MAX_TOUCHES (touch_handle_motion MAX_TOUCHES wl id x y) ∧
      active_ids_in MAX_TOUCHES (touch_handle_motion MAX_TOUCHES wl id x y) S := by
  obtain ⟨_, hm2, hm3⟩ := touch_handle_motion_loop_spec id x y MAX_TOUCHES 0 wl
  have hact : ∀ k, ((touch_handle_motion MAX_TOUCHES wl id x y).active_touch_positions k).active
      = (wl.active_touch_positions k).active ∧
      ((touch_handle_motion MAX_TOUCHES wl id x y).active_touch_positions k).id
      = (wl.active_touch_positions k).id := by
    intro k
    unfold touch_handle_motion
    rw [hm3 k]
    split_ifs <;> exact ⟨rfl, rfl⟩
  obtain ⟨h0, h1, h2⟩ := h
  refine ⟨⟨?_, ?_, fun i hi => ?_⟩, fun k hk hk2 => ?_⟩
  · unfold touch_handle_motion; rw [hm2]; exact h0
  · unfold touch_handle_motion; rw [hm2]; exact h1
  · rw [(hact i).1, h2 i hi]
    unfold touch_handle_motion; rw [hm2]
  · rw [(hact k).1] at hk2
    rw [(hact k).2]
    exact hS k hk hk2

theorem touch_handle_cancel_inv (MAX_TOUCHES : Nat) (wl : gfx_ctx_wayland_data_t)
    (S : Int → Prop) :
    touch_inv MAX_TOUCHES (touch_handle_cancel MAX_TOUCHES wl) ∧
      active_ids_in MAX_TOUCHES (touch_handle_cancel MAX_TOUCHES wl) S := by
  have hc : ∀ k, k < MAX_TOUCHES →
      ((touch_handle_cancel MAX_TOUCHES wl).active_touch_positions k).active = false := by
    intro k hk
    unfold touch_handle_cancel
    simp only [touch_handle_cancel_loop_apply]
    rw [if_pos ⟨Nat.zero_le _, by omega⟩]
    rfl
  refine ⟨⟨le_refl _, ?_, fun i hi => ?_⟩, fun k hk hk2 => ?_⟩
  · show (0 : Int) ≤ (MAX_TOUCHES : Int)
    omega
  · rw [hc i hi]
    show (false = true) ↔ (i : Int) < 0
    constructor
    · intro h; exact absurd h (by simp)
    · intro h; omega
  · rw [hc k hk] at hk2
    exact absurd hk2 (by simp)

theorem touch_table_empty_inv (MAX_TOUCHES : Nat) (wl : gfx_ctx_wayland_data_t)
    (h : touch_table_empty MAX_TOUCHES wl) :
    touch_inv MAX_TOUCHES wl ∧ active_ids_in MAX_TOUCHES wl (fun _ => False) := by
  obtain ⟨h0, h1⟩ := h
  refine ⟨⟨by omega, by omega, fun i hi => ?_⟩, fun k hk hk2 => ?_⟩
  · rw [h1 i hi, h0]
    constructor
    · intro h; exact absurd h (by simp)
    · intro h; omega
  · rw [h1 k hk] at hk2
    exact absurd hk2 (by simp)

theorem touch_table_empty_of_inv (MAX_TOUCHES : Nat) (wl : gfx_ctx_wayland_data_t)
    (h : touch_inv MAX_TOUCHES wl) (hS : active_ids_in MAX_TOUCHES wl (fun _ => False)) :
    touch_table_empty MAX_TOUCHES wl := by
  have hall : ∀ i, i < MAX_TOUCHES → (wl.active_touch_positions i).active = false := by
    intro i hi
    by_contra hc
    exact hS i hi (by simpa using hc)
  obtain ⟨h0, h1, h2⟩ := h
  refine ⟨?_, hall⟩
  by_contra hne
  have hpos : 0 < wl.num_active_touches := by omega
  have hM : 0 < MAX_TOUCHES := by omega
  have := (h2 0 hM).2 (by simpa using hpos)
  rw [hall 0 hM] at this
  exact absurd this (by simp)

theorem touch_run_append (MAX_TOUCHES : Nat) (wl wl1 : gfx_ctx_wayland_data_t)
    (a b : List touch_event) (h : touch_run MAX_TOUCHES wl a = some wl1) :
    touch_run MAX_TOUCHES wl (a ++ b) = touch_run MAX_TOUCHES wl1 b := by
  induction a generalizing wl with
  | nil =>
    simp only [touch_run, Option.some.injEq] at h
    subst h
    rfl
  | cons e es ih =>
    simp only [List.cons_append, touch_run] at h ⊢
    cases hs : touch_step MAX_TOUCHES wl e with
    | none => rw [hs] at h; exact absurd h (by simp)
    | some w =>
      rw [hs] at h
      simp only [] at h ⊢
      exact ih w h

theorem touch_run_inv (MAX_TOUCHES : Nat) (wl : gfx_ctx_wayland_data_t)
    (evs : List touch_event) (h : touch_inv MAX_TOUCHES wl) :
    ∃ wl', touch_run MAX_TOUCHES wl evs = some wl' ∧ touch_inv MAX_TOUCHES wl' := by
  induction evs generalizing wl with
  | nil => exact ⟨wl, rfl, h⟩
  | cons e es ih =>
    have hT : active_ids_in MAX_TOUCHES wl (fun _ => True) := fun _ _ _ => trivial
    cases e with
    | down id x y =>
      obtain ⟨w, hw1, hw2, _⟩ := touch_handle_down_inv MAX_TOUCHES wl id x y _ h hT
      obtain ⟨w', hw3, hw4⟩ := ih w hw2
      exact ⟨w', by simp only [touch_run, touch_step, hw1]; exact hw3, hw4⟩
    | up id =>
      obtain ⟨w', hw3, hw4⟩ := ih _ (touch_handle_up_inv MAX_TOUCHES wl id _ h hT).1
      exact ⟨w', by simp only [touch_run, touch_step]; exact hw3, hw4⟩
    | motion id x y =>
      obtain ⟨w', hw3, hw4⟩ := ih _ (touch_handle_motion_inv MAX_TOUCHES wl id x y _ h hT).1
      exact ⟨w', by simp only [touch_run, touch_step]; exact hw3, hw4⟩
    | cancel =>
      obtain ⟨w', hw3, hw4⟩ := ih _ (touch_handle_cancel_inv MAX_TOUCHES wl (fun _ => True)).1
      exact ⟨w', by simp only [touch_run, touch_step]; exact hw3, hw4⟩

theorem touch_run_downs (MAX_TOUCHES : Nat) (downs : List (Int × Int × Int))
    (wl : gfx_ctx_wayland_data_t) (S : Int → Prop) (h : touch_inv MAX_TOUCHES wl)
    (hS : active_ids_in MAX_TOUCHES wl S) :
    ∃ wl', touch_run MAX_TOUCHES wl
          (downs.map (fun d => touch_event.down d.1 d.2.1 d.2.2)) = some wl' ∧
      touch_inv MAX_TOUCHES wl' ∧
      active_ids_in MAX_TOUCHES wl' (fun a => S a ∨ a ∈ downs.map (fun d => d.1)) := by
  induction downs generalizing wl S with
  | nil => exact ⟨wl, rfl, h, fun k hk hk2 => Or.inl (hS k hk hk2)⟩
  | cons d ds ih =>
    obtain ⟨w, hw1, hw2, hw3⟩ := touch_handle_down_inv MAX_TOUCHES wl d.1 d.2.1 d.2.2 S h hS
    obtain ⟨w', hw4, hw5, hw6⟩ := ih w _ hw2 hw3
    refine ⟨w', by simp only [List.map_cons, touch_run, touch_step, hw1]; exact hw4, hw5,
      fun k hk hk2 => ?_⟩
    rcases hw6 k hk hk2 with (h1 | h1) | h1
    · exact Or.inl h1
    · exact Or.inr (by simp [h1])
    · exact Or.inr (by simp only [List.map_cons, List.mem_cons]; exact Or.inr h1)

theorem touch_run_ups (MAX_TOUCHES : Nat) (ups : List Int)
    (wl : gfx_ctx_wayland_data_t) (S : Int → Prop) (h : touch_inv MAX_TOUCHES wl)
    (hS : active_ids_in MAX_TOUCHES wl S) :
    ∃ wl', touch_run MAX_TOUCHES wl (ups.map touch_event.up) = some wl' ∧
      touch_inv MAX_TOUCHES wl' ∧
      active_ids_in MAX_TOUCHES wl' (fun a => S a ∧ a ∉ ups) := by
  induction ups generalizing wl S with
  | nil => exact ⟨wl, rfl, h, fun k hk hk2 => ⟨hS k hk hk2, List.not_mem_nil _⟩⟩
  | cons u us ih =>
    obtain ⟨hw2, hw3⟩ := touch_handle_up_inv MAX_TOUCHES wl u S h hS
    obtain ⟨w', hw4, hw5, hw6⟩ := ih _ _ hw2 hw3
    refine ⟨w', by simp only [List.map_cons, touch_run, touch_step]; exact hw4, hw5,
      fun k hk hk2 => ?_⟩
    obtain ⟨⟨h1, h2⟩, h3⟩ := hw6 k hk hk2
    refine ⟨h1, ?_⟩
    simp only [List.mem_cons, not_or]
    exact ⟨h2, h3⟩

/-! ## Touch table: the verified properties -/

/-- C1: from an empty touch table, `touch_handle_down` once per id of a list of
pairwise distinct ids (of any length, also longer than `MAX_TOUCHES`) followed
by `touch_handle_up` once per id in any order runs without a fault and leaves
`num_active_touches = 0` and every slot of the table inactive. -/
theorem touch_down_then_up_all_empty (MAX_TOUCHES : Nat) (wl0 : gfx_ctx_wayland_data_t)
    (downs : List (Int × Int × Int)) (ups : List Int)
    (hempty : touch_table_empty MAX_TOUCHES wl0)
    (hdistinct : (downs.map (fun d => d.1)).Nodup)
    (horder : ups.Perm (downs.map (fun d => d.1))) :
    ∃ wl, touch_run MAX_TOUCHES wl0
          (downs.map (fun d => touch_event.down d.1 d.2.1 d.2.2) ++ ups.map touch_event.up)
        = some wl ∧
      wl.num_active_touches = 0 ∧
      ∀ i, i < MAX_TOUCHES → (wl.active_touch_positions i).active = false := by
  have _ := hdistinct
  obtain ⟨hi0, hs0⟩ := touch_table_empty_inv MAX_TOUCHES wl0 hempty
  obtain ⟨w1, hr1, hi1, hs1⟩ := touch_run_downs MAX_TOUCHES downs wl0 _ hi0 hs0
  obtain ⟨w2, hr2, hi2, hs2⟩ := touch_run_ups MAX_TOUCHES ups w1 _ hi1 hs1
  have hfin : active_ids_in MAX_TOUCHES w2 (fun _ => False) := by
    intro k hk hk2
    obtain ⟨h1, h2⟩ := hs2 k hk hk2
    rcases h1 with h1 | h1
    · exact h1
    · exact h2 (horder.mem_iff.2 h1)
  obtain ⟨hz, hall⟩ := touch_table_empty_of_inv MAX_TOUCHES w2 hi2 hfin
  exact ⟨w2, by rw [touch_run_append MAX_TOUCHES wl0 w1 _ _ hr1]; exact hr2, hz, hall⟩

theorem touch_down_then_up_all_empty_witness :
    ∃ wl, touch_run 2 wl_zero
          ([(7, 256, 512), (8, 0, 0), (9, 300, 300)].map
              (fun d => touch_event.down d.1 d.2.1 d.2.2)
            ++ [9, 7, 8].map touch_event.up)
        = some wl ∧
      wl.num_active_touches = 0 ∧
      ∀ i, i < 2 → (wl.active_touch_positions i).active = false :=
  touch_down_then_up_all_empty 2 wl_zero [(7, 256, 512), (8, 0, 0), (9, 300, 300)] [9, 7, 8]
    ⟨rfl, fun _ _ => rfl⟩ (by decide) (by decide)

/-- C5: whatever the state of the touch table, after `touch_handle_cancel` every
one of the `MAX_TOUCHES` slots is inactive with `id = -1`, `x = 0`, `y = 0`, and
`num_active_touches = 0`. -/
theorem touch_handle_cancel_clears (MAX_TOUCHES : Nat) (wl : gfx_ctx_wayland_data_t) :
    (touch_handle_cancel MAX_TOUCHES wl).num_active_touches = 0 ∧
      ∀ i, i < MAX_TOUCHES →
        ((touch_handle_cancel MAX_TOUCHES wl).active_touch_positions i).active = false ∧
        ((touch_handle_cancel MAX_TOUCHES wl).active_touch_positions i).id = -1 ∧
        ((touch_handle_cancel MAX_TOUCHES wl).active_touch_positions i).x = 0 ∧
        ((touch_handle_cancel MAX_TOUCHES wl).active_touch_positions i).y = 0 := by
  refine ⟨rfl, fun i hi => ?_⟩
  have h : (touch_handle_cancel MAX_TOUCHES wl).active_touch_positions i = touch_cleared := by
    unfold touch_handle_cancel
    simp only [touch_handle_cancel_loop_apply]
    rw [if_pos ⟨Nat.zero_le _, by omega⟩]
  rw [h]
  exact ⟨rfl, rfl, rfl, rfl⟩

/-- C7: every sequence of `touch_handle_down`, `touch_handle_up`,
`touch_handle_motion` and `touch_handle_cancel` events runs from the empty table
without a fault, and in the state it reaches `num_active_touches` equals the
number of active slots, the active slots are exactly the indices
`0 .. num_active_touches - 1`, and `0 <= num_active_touches <= MAX_TOUCHES`. -/
theorem touch_table_invariant (MAX_TOUCHES : Nat) (wl0 : gfx_ctx_wayland_data_t)
    (evs : List touch_event) (hempty : touch_table_empty MAX_TOUCHES wl0) :
    ∃ wl, touch_run MAX_TOUCHES wl0 evs = some wl ∧
      wl.num_active_touches
        = (num_active_slots MAX_TOUCHES wl.active_touch_positions : Int) ∧
      (∀ i, i < MAX_TOUCHES →
        ((wl.active_touch_positions i).active = true ↔ (i : Int) < wl.num_active_touches)) ∧
      0 ≤ wl.num_active_touches ∧ wl.num_active_touches ≤ (MAX_TOUCHES : Int) := by
  obtain ⟨w, hw1, hw2⟩ := touch_run_inv MAX_TOUCHES wl0 evs
    (touch_table_empty_inv MAX_TOUCHES wl0 hempty).1
  exact ⟨w, hw1, num_active_slots_of_inv MAX_TOUCHES w hw2, hw2.2.2, hw2.1, hw2.2.1⟩

theorem touch_table_invariant_witness :
    ∃ wl, touch_run 3 wl_zero
        [touch_event.down 5 256 256, touch_event.down 6 512 512, touch_event.motion 5 0 0,
          touch_event.up 5, touch_event.down 5 256 0, touch_event.down 5 0 256,
          touch_event.down 9 0 0, touch_event.up 5, touch_event.cancel,
          touch_event.down 1 0 0] = some wl ∧
      wl.num_active_touches = (num_active_slots 3 wl.active_touch_positions : Int) ∧
      (∀ i, i < 3 →
        ((wl.active_touch_positions i).active = true ↔ (i : Int) < wl.num_active_touches)) ∧
      0 ≤ wl.num_active_touches ∧ wl.num_active_touches ≤ ((3 : Nat) : Int) :=
  touch_table_invariant 3 wl_zero _ ⟨rfl, fun _ _ => rfl⟩



/-! ## Key bitmap -/

theorem get_bit_eq (x j : Nat) : (x >>> j) &&& 1 = (x.testBit j).toNat := by
  rw [Nat.toNat_testBit, Nat.and_one_is_mod, Nat.shiftRight_eq_div_pow]

theorem clear_byte_bit (b k j : Nat) (hk : k < 8) (hj : j < 8) :
    (((b &&& (4294967295 ^^^ (1 <<< k))) % 256) >>> j) &&& 1
      = if j = k then 0 else (b >>> j) &&& 1 := by
  rw [get_bit_eq, get_bit_eq]
  have h256 : (256 : Nat) = 2 ^ 8 := by norm_num
  rw [h256, Nat.testBit_mod_two_pow, Nat.testBit_land]
  have hm : (4294967295 ^^^ (1 <<< k)).testBit j = !decide (j = k) := by
    interval_cases k <;> interval_cases j <;> decide
  rw [hm]
  by_cases hjk : j = k
  · simp [hjk]
  · simp [hjk, hj]

theorem bit_index_ext (a b : Nat) (h1 : a >>> 3 = b >>> 3) (h2 : a &&& 7 = b &&& 7) :
    a = b := by
  have e : ∀ x : Nat, x &&& 7 = x % 8 := fun x => Nat.and_pow_two_sub_one_eq_mod x 3
  rw [e, e] at h2
  rw [Nat.shiftRight_eq_div_pow, Nat.shiftRight_eq_div_pow] at h1
  norm_num at h1
  omega

theorem and_seven_lt (x : Nat) : x &&& 7 < 8 := by
  have e : x &&& 7 = x % 8 := Nat.and_pow_two_sub_one_eq_mod x 3
  omega

theorem shift_three_lt (x n : Nat) (h : x < 8 * n) : x >>> 3 < n := by
  rw [Nat.shiftRight_eq_div_pow]
  norm_num
  omega

theorem BIT_CLEAR_spec (size : Nat) (a : Nat → Nat) (bit : Nat) (h : bit < 8 * size) :
    ∃ a', BIT_CLEAR size a bit = some a' ∧ BIT_GET a' bit = 0 ∧
      ∀ other, other ≠ bit → BIT_GET a' other = BIT_GET a other := by
  unfold BIT_CLEAR
  rw [if_pos (shift_three_lt bit size h)]
  refine ⟨_, rfl, ?_, fun other hne => ?_⟩
  · unfold BIT_GET
    rw [Function.update_same, clear_byte_bit _ _ _ (and_seven_lt bit) (and_seven_lt bit)]
    simp
  · unfold BIT_GET
    by_cases hb : other >>> 3 = bit >>> 3
    · rw [hb, Function.update_same,
        clear_byte_bit _ _ _ (and_seven_lt bit) (and_seven_lt other)]
      have hk : other &&& 7 ≠ bit &&& 7 := fun hc => hne (bit_index_ext other bit hb hc)
      rw [if_neg hk]
    · rw [Function.update_noteq hb]

theorem keyboard_keysym_cases (c : keyboard_consts) (key : Nat) :
    keyboard_keysym c key
      = if key = c.KEY_OK ∨ key = c.KEY_SELECT ∨ key = c.KEY_EXIT then c.KEY_CLEAR else key := by
  unfold keyboard_keysym
  by_cases h1 : key = c.KEY_OK
  · simp [h1]
  · by_cases h2 : key = c.KEY_SELECT
    · simp [h2]
    · simp [h1, h2]

/-- C2: for every `key_state` bitmap and every key code inside the range of the
bitmap (the bitmap also covers `KEY_CLEAR`, under which aliased keys are
recorded), `keyboard_handle_key` with state `WL_KEYBOARD_KEY_STATE_RELEASED`
runs without a fault; afterwards the bit of `key_state` for the code the event is
recorded under is 0, whatever it was before, and every other bit of `key_state`
is as before. -/
theorem keyboard_release_clears_bit (c : keyboard_consts) (wl : gfx_ctx_wayland_data_t)
    (key : Nat)
    (hstates : c.WL_KEYBOARD_KEY_STATE_PRESSED ≠ c.WL_KEYBOARD_KEY_STATE_RELEASED)
    (hkey : key < 8 * c.UDEV_MAX_KEYS) (hclear : c.KEY_CLEAR < 8 * c.UDEV_MAX_KEYS) :
    ∃ r, keyboard_handle_key c wl key c.WL_KEYBOARD_KEY_STATE_RELEASED = some r ∧
      r.keysym = keyboard_keysym c key ∧
      BIT_GET r.wl.input.key_state r.keysym = 0 ∧
      ∀ bit, bit ≠ r.keysym →
        BIT_GET r.wl.input.key_state bit = BIT_GET wl.input.key_state bit := by
  have hrange : keyboard_keysym c key < 8 * c.UDEV_MAX_KEYS := by
    rw [keyboard_keysym_cases]
    split_ifs
    · exact hclear
    · exact hkey
  obtain ⟨a', h1, h2, h3⟩ :=
    BIT_CLEAR_spec c.UDEV_MAX_KEYS wl.input.key_state (keyboard_keysym c key) hrange
  unfold keyboard_handle_key
  simp only []
  rw [if_neg (fun h => hstates h.symm), if_true, h1]
  exact ⟨_, rfl, rfl, h2, h3⟩

theorem keyboard_release_clears_bit_witness :
    ∃ r, keyboard_handle_key linux_keyboard_consts
        { wl_zero with input := { wl_zero.input with key_state := fun _ => 255 } } 0x160 0
        = some r ∧
      r.keysym = keyboard_keysym linux_keyboard_consts 0x160 ∧
      BIT_GET r.wl.input.key_state r.keysym = 0 ∧
      ∀ bit, bit ≠ r.keysym →
        BIT_GET r.wl.input.key_state bit
          = BIT_GET
              ({ wl_zero with
                  input := { wl_zero.input with key_state := fun _ => 255 } }).input.key_state
              bit :=
  keyboard_release_clears_bit linux_keyboard_consts
    { wl_zero with input := { wl_zero.input with key_state := fun _ => 255 } } 0x160
    (by decide) (by decide) (by decide)

/-- C6: for every `key_state` bitmap, after `keyboard_handle_leave` every byte,
and so every bit, of `key_state` is 0 and `keyboard_focus` is false, whichever
keys were recorded as pressed; no release event is involved. -/
theorem keyboard_leave_releases_all (c : keyboard_consts) (wl : gfx_ctx_wayland_data_t) :
    (keyboard_handle_leave c wl).input.keyboard_focus = false ∧
      (∀ i, i < c.UDEV_MAX_KEYS → (keyboard_handle_leave c wl).input.key_state i = 0) ∧
      ∀ bit, bit < 8 * c.UDEV_MAX_KEYS →
        BIT_GET (keyboard_handle_leave c wl).input.key_state bit = 0 := by
  refine ⟨rfl, fun i hi => ?_, fun bit hbit => ?_⟩
  · show (if i < c.UDEV_MAX_KEYS then 0 else wl.input.key_state i) = 0
    rw [if_pos hi]
  · unfold BIT_GET
    show ((if bit >>> 3 < c.UDEV_MAX_KEYS then 0 else wl.input.key_state (bit >>> 3))
      >>> (bit &&& 7)) &&& 1 = 0
    rw [if_pos (shift_three_lt bit _ hbit)]
    simp

/-! ## `d3d8_texture_blit` -/

theorem to_unsigned_of_lt (v : Int) (h0 : 0 ≤ v) (h1 : v < 2 ^ 32) :
    to_unsigned v = v.toNat := by
  unfold to_unsigned
  rw [Int.emod_eq_of_lt h0 h1]

theorem blit_dst_offset_of_lt (lr : D3DLOCKED_RECT) (y : Nat) (h0 : 0 ≤ lr.Pitch)
    (h1 : (y : Int) * lr.Pitch < 2 ^ 32) :
    blit_dst_offset lr y = y * lr.Pitch.toNat := by
  unfold blit_dst_offset
  rw [to_unsigned_of_lt _ (mul_nonneg (Int.ofNat_nonneg y) h0) h1]
  obtain ⟨P, hP⟩ := Int.eq_ofNat_of_zero_le h0
  rw [hP]
  have e : ((y : Int) * (P : Int)) = ((y * P : Nat) : Int) := by push_cast; rfl
  rw [e, Int.toNat_ofNat, Int.toNat_ofNat]

theorem d3d8_texture_blit_loop_frame (pixel_size : Nat) (lr : D3DLOCKED_RECT) (frame : Nat)
    (width pitch : Nat) (fuel y0 : Nat) (mem : Nat → Nat) (a : Nat)
    (h : ∀ y b, y0 ≤ y → y < y0 + fuel → b < blit_row_bytes width pixel_size →
      a ≠ lr.pBits + blit_dst_offset lr y + b) :
    d3d8_texture_blit_loop pixel_size lr frame width pitch fuel y0 mem a = mem a := by
  induction fuel generalizing y0 mem with
  | zero => rfl
  | succ n ih =>
    unfold d3d8_texture_blit_loop
    simp only []
    rw [ih (y0 + 1) _ (fun y b h1 h2 h3 => h y b (by omega) (by omega) h3)]
    unfold memcpy
    by_cases hin : lr.pBits + blit_dst_offset lr y0 ≤ a ∧
        a < lr.pBits + blit_dst_offset lr y0 + blit_row_bytes width pixel_size
    · exfalso
      exact h y0 (a - (lr.pBits + blit_dst_offset lr y0)) (le_refl _) (by omega)
        (by omega) (by omega)
    · rw [if_neg hin]

theorem d3d8_texture_blit_loop_copy (pixel_size : Nat) (lr : D3DLOCKED_RECT) (frame : Nat)
    (width pitch : Nat) (fuel y0 : Nat) (mem : Nat → Nat)
    (hrows : ∀ y y' b b', y0 ≤ y → y < y' → y' < y0 + fuel →
      b < blit_row_bytes width pixel_size → b' < blit_row_bytes width pixel_size →
      lr.pBits + blit_dst_offset lr y + b ≠ lr.pBits + blit_dst_offset lr y' + b')
    (hsrc : ∀ y y' b b', y0 ≤ y → y < y0 + fuel → y0 ≤ y' → y' < y0 + fuel →
      b < blit_row_bytes width pixel_size → b' < blit_row_bytes width pixel_size →
      frame + blit_src_offset pitch y + b ≠ lr.pBits + blit_dst_offset lr y' + b') :
    ∀ y b, y0 ≤ y → y < y0 + fuel → b < blit_row_bytes width pixel_size →
      d3d8_texture_blit_loop pixel_size lr frame width pitch fuel y0 mem
          (lr.pBits + blit_dst_offset lr y + b)
        = mem (frame + blit_src_offset pitch y + b) := by
  induction fuel generalizing y0 mem with
  | zero => intro y b h1 h2; omega
  | succ n ih =>
    intro y b h1 h2 h3
    unfold d3d8_texture_blit_loop
    simp only []
    by_cases hy : y = y0
    · subst hy
      rw [d3d8_texture_blit_loop_frame pixel_size lr frame width pitch n (y + 1) _ _
        (fun y' b' g1 g2 g3 => hrows y y' b b' (le_refl _) (by omega) (by omega) h3 g3)]
      unfold memcpy
      rw [if_pos ⟨by omega, by omega⟩]
      congr 1
      omega
    · rw [ih (y0 + 1) _
        (fun y y' b b' g1 g2 g3 g4 g5 => hrows y y' b b' (by omega) g2 (by omega) g4 g5)
        (fun y y' b b' g1 g2 g3 g4 g5 g6 =>
          hsrc y y' b b' (by omega) (by omega) (by omega) (by omega) g5 g6)
        y b (by omega) (by omega) h3]
      unfold memcpy
      have hne := hsrc y y0 b
      by_cases hin : lr.pBits + blit_dst_offset lr y0 ≤ frame + blit_src_offset pitch y + b ∧
          frame + blit_src_offset pitch y + b
            < lr.pBits + blit_dst_offset lr y0 + blit_row_bytes width pixel_size
      · exfalso
        exact hne (frame + blit_src_offset pitch y + b - (lr.pBits + blit_dst_offset lr y0))
          h1 h2 (le_refl _) (by omega) h3 (by omega) (by omega)
      · rw [if_neg hin]

/-- C3, amended: `d3d8_texture_blit` reproduces the source image row by row when
the row offsets do not wrap.  For every pixel_size, width, height, source pitch
and destination pitch `lr->Pitch` with `width*pixel_size <=` both pitches, with
`y*pitch < 2^32` and `y*lr->Pitch < 2^32` for every row `y < height`, and with
source image and destination image not overlapping, after the call the
destination byte `y*lr->Pitch + b` equals the source byte `y*pitch + b` for every
row `y < height` and every offset `b < width*pixel_size`. -/
theorem d3d8_texture_blit_reproduces_rows (pixel_size : Nat) (lr : D3DLOCKED_RECT)
    (frame width height pitch : Nat) (mem : Nat → Nat)
    (hpitch : pitch < 2 ^ 32)
    (hsrc_pitch : width * pixel_size ≤ pitch)
    (hdst_pitch : ((width * pixel_size : Nat) : Int) ≤ lr.Pitch)
    (hsrc_offsets : ∀ y, y < height → y * pitch < 2 ^ 32)
    (hdst_offsets : ∀ y, y < height → (y : Int) * lr.Pitch < 2 ^ 32)
    (hdisjoint : ∀ y b y' b', y < height → b < width * pixel_size → y' < height →
      b' < width * pixel_size →
      frame + y * pitch + b ≠ lr.pBits + y' * lr.Pitch.toNat + b') :
    ∀ y b, y < height → b < width * pixel_size →
      d3d8_texture_blit pixel_size lr frame width height pitch mem
          (lr.pBits + y * lr.Pitch.toNat + b)
        = mem (frame + y * pitch + b) := by
  intro y b hy hb
  have hP0 : 0 ≤ lr.Pitch := le_trans (Int.ofNat_nonneg _) hdst_pitch
  have hlen : blit_row_bytes width pixel_size = width * pixel_size :=
    Nat.mod_eq_of_lt (lt_of_le_of_lt hsrc_pitch hpitch)
  have hout : ∀ y, y < height → blit_dst_offset lr y = y * lr.Pitch.toNat :=
    fun y hy => blit_dst_offset_of_lt lr y hP0 (hdst_offsets y hy)
  have hinp : ∀ y, y < height → blit_src_offset pitch y = y * pitch :=
    fun y hy => Nat.mod_eq_of_lt (hsrc_offsets y hy)
  have hlenP : width * pixel_size ≤ lr.Pitch.toNat := by
    have := Int.toNat_of_nonneg hP0
    omega
  have key := d3d8_texture_blit_loop_copy pixel_size lr frame width pitch height 0 mem
    (by
      intro y y' b b' g1 g2 g3 g4 g5
      rw [hlen] at g4 g5
      rw [hout y (by omega), hout y' (by omega)]
      have hmul : (y + 1) * lr.Pitch.toNat ≤ y' * lr.Pitch.toNat :=
        Nat.mul_le_mul_right _ (by omega)
      rw [Nat.add_mul, Nat.one_mul] at hmul
      omega)
    (by
      intro y y' b b' g1 g2 g3 g4 g5 g6
      rw [hlen] at g5 g6
      rw [hout y' (by omega), hinp y (by omega)]
      exact hdisjoint y b y' b' (by omega) g5 (by omega) g6)
    y b (Nat.zero_le _) (by omega) (by rw [hlen]; exact hb)
  rw [hout y hy, hinp y hy] at key
  exact key

theorem d3d8_texture_blit_reproduces_rows_witness :
    d3d8_texture_blit 2 { Pitch := 8, pBits := 100 } 0 2 2 5 (fun a => a)
        (100 + 1 * ((8 : Int).toNat) + 3)
      = (fun a => a) (0 + 1 * 5 + 3) :=
  d3d8_texture_blit_reproduces_rows 2 { Pitch := 8, pBits := 100 } 0 2 2 5 (fun a => a)
    (by norm_num) (by norm_num) (by norm_num)
    (fun y hy => by omega) (fun y hy => by simp only []; omega)
    (fun y b y' b' h1 h2 h3 h4 => by
        have e8 : (8 : Int).toNat = 8 := rfl
        simp only [e8]
        omega)
    1 3 (by norm_num) (by norm_num)

/-- C3, the claim as stated fails: with `pixel_size = 1`, `width = 1`,
`height = 5`, source pitch `1` and destination pitch `2^30` (so
`width*pixel_size <=` both pitches), a source buffer of 5 bytes at address 0 and
the destination at address 16 (not overlapping), the destination offset
`4 * lr->Pitch` of row 4 wraps to 0, the offset of row 0.  After the call the
destination byte `0*lr->Pitch + 0` of row 0 holds the source byte of row 4 and
differs from the source byte `0*pitch + 0`. -/
theorem d3d8_texture_blit_rows_collide_on_wrap :
    (1 * 1 ≤ 1 ∧ ((1 * 1 : Nat) : Int) ≤ 2 ^ 30) ∧
    (∀ o y b, o < 5 → y < 5 → b < 1 * 1 →
      0 + o ≠ 16 + y * 2 ^ 30 + b ∧
      0 + o ≠ 16 + blit_dst_offset { Pitch := 2 ^ 30, pBits := 16 } y + b) ∧
    d3d8_texture_blit 1 { Pitch := 2 ^ 30, pBits := 16 } 0 1 5 1
        (fun a => if a = 4 then 1 else 0) (16 + 0 * 2 ^ 30 + 0) = 1 ∧
    (fun a => if a = 4 then 1 else 0) (0 + 0 * 1 + 0) = 0 := by
  refine ⟨⟨by norm_num, by norm_num⟩, ?_, ?_, ?_⟩
  · intro o y b h1 h2 h3
    constructor <;> omega
  · decide
  · decide

/-- C4, amended: `d3d8_texture_blit` writes only image bytes when the destination
row offsets do not wrap.  With `width*pixel_size <= lr->Pitch` and
`y*lr->Pitch < 2^32` for every row `y < height` (the offsets are computed in
32-bit `unsigned` arithmetic), every byte of memory that is not at a destination
offset `y*lr->Pitch + b` with `y < height` and `b < width*pixel_size` has the same
value after the call as before; in particular the stride padding
`width*pixel_size <= b < lr->Pitch` at the end of each destination row is
unchanged, and a source buffer of `src_size` bytes that does not overlap the
destination image is unchanged. -/
theorem d3d8_texture_blit_writes_only_image (pixel_size : Nat) (lr : D3DLOCKED_RECT)
    (frame width height pitch : Nat) (mem : Nat → Nat) (src_size : Nat)
    (hdst_pitch : ((width * pixel_size : Nat) : Int) ≤ lr.Pitch)
    (hdst_offsets : ∀ y, y < height → (y : Int) * lr.Pitch < 2 ^ 32)
    (hdisjoint : ∀ o y b, o < src_size → y < height → b < width * pixel_size →
      frame + o ≠ lr.pBits + y * lr.Pitch.toNat + b) :
    (∀ a, (∀ y b, y < height → b < width * pixel_size →
        a ≠ lr.pBits + y * lr.Pitch.toNat + b) →
      d3d8_texture_blit pixel_size lr frame width height pitch mem a = mem a) ∧
    (∀ y b, y < height → width * pixel_size ≤ b → b < lr.Pitch.toNat →
      d3d8_texture_blit pixel_size lr frame width height pitch mem
          (lr.pBits + y * lr.Pitch.toNat + b)
        = mem (lr.pBits + y * lr.Pitch.toNat + b)) ∧
    (∀ o, o < src_size →
      d3d8_texture_blit pixel_size lr frame width height pitch mem (frame + o)
        = mem (frame + o)) := by
  have hP0 : 0 ≤ lr.Pitch := le_trans (Int.ofNat_nonneg _) hdst_pitch
  have hout : ∀ y, y < height → blit_dst_offset lr y = y * lr.Pitch.toNat :=
    fun y hy => blit_dst_offset_of_lt lr y hP0 (hdst_offsets y hy)
  have hlen : blit_row_bytes width pixel_size ≤ width * pixel_size := Nat.mod_le _ _
  have hframe : ∀ a, (∀ y b, y < height → b < width * pixel_size →
        a ≠ lr.pBits + y * lr.Pitch.toNat + b) →
      d3d8_texture_blit pixel_size lr frame width height pitch mem a = mem a := by
    intro a ha
    apply d3d8_texture_blit_loop_frame
    intro y b _ g2 g3
    rw [hout y (by omega)]
    exact ha y b (by omega) (by omega)
  refine ⟨hframe, ?_, fun o ho => hframe _ (fun y b hy hb => hdisjoint o y b ho hy hb)⟩
  intro y b _ hb1 hb2
  apply hframe
  intro y' b' _ hb'
  rcases lt_trichotomy y y' with h | h | h
  · have hmul : (y + 1) * lr.Pitch.toNat ≤ y' * lr.Pitch.toNat :=
      Nat.mul_le_mul_right _ (by omega)
    rw [Nat.add_mul, Nat.one_mul] at hmul
    omega
  · subst h
    omega
  · have hmul : (y' + 1) * lr.Pitch.toNat ≤ y * lr.Pitch.toNat :=
      Nat.mul_le_mul_right _ (by omega)
    rw [Nat.add_mul, Nat.one_mul] at hmul
    omega

theorem d3d8_texture_blit_writes_only_image_witness :
    d3d8_texture_blit 2 { Pitch := 8, pBits := 100 } 0 2 2 5 (fun a => a)
        (100 + 1 * ((8 : Int).toNat) + 6)
      = (fun a => a) (100 + 1 * ((8 : Int).toNat) + 6) :=
  (d3d8_texture_blit_writes_only_image 2 { Pitch := 8, pBits := 100 } 0 2 2 5 (fun a => a) 10
    (by norm_num)
    (fun y hy => by simp only []; omega)
    (fun o y b h1 h2 h3 => by
      have e8 : (8 : Int).toNat = 8 := rfl
      simp only [e8]
      omega)).2.1 1 6 (by norm_num) (by norm_num) (by decide)

/-- C4, the claim as stated fails: with `pixel_size = 1`, `width = 1`,
`height = 5`, source pitch `1` and destination pitch `2^30 + 1` (so
`width*pixel_size <= lr->Pitch`), a source buffer of 5 bytes at address 8 and the
destination at address 16 (not overlapping), the destination offset
`4 * lr->Pitch` of row 4 wraps to 4.  The destination byte at offset 4 is not at
an offset `y*lr->Pitch + b` with `y < 5` and `b < 1`: it lies in the stride padding
of row 0.  Its value before the call is 0, after the call it is the source byte
of row 4. -/
theorem d3d8_texture_blit_padding_overwritten_on_wrap :
    ((1 * 1 : Nat) : Int) ≤ 2 ^ 30 + 1 ∧
    (∀ o y b, o < 5 → y < 5 → b < 1 * 1 →
      8 + o ≠ 16 + y * (2 ^ 30 + 1) + b ∧
      8 + o ≠ 16 + blit_dst_offset { Pitch := 2 ^ 30 + 1, pBits := 16 } y + b) ∧
    (∀ y b, y < 5 → b < 1 * 1 → 16 + 4 ≠ 16 + y * (2 ^ 30 + 1) + b) ∧
    (1 * 1 ≤ 4 ∧ 4 < 2 ^ 30 + 1) ∧
    blit_dst_offset { Pitch := 2 ^ 30 + 1, pBits := 16 } 4 = 4 ∧
    (fun a => if a = 12 then 1 else 0) (16 + 4) = 0 ∧
    d3d8_texture_blit 1 { Pitch := 2 ^ 30 + 1, pBits := 16 } 8 1 5 1
        (fun a => if a = 12 then 1 else 0) (16 + 4) = 1 := by
  refine ⟨by norm_num, ?_, ?_, ⟨by norm_num, by norm_num⟩, ?_, ?_, ?_⟩
  · intro o y b h1 h2 h3
    constructor <;> omega
  · intro y b h1 h2
    omega
  · decide
  · decide
  · decide

/-! ## Emscripten WebGL context driver -/

/-- C8: after any sequence of earlier `check_window` calls on any context data
(whatever `init` or `set_video_mode` stored before), the width and height that
`gfx_ctx_emscripten_webgl_check_window` reports through its out-parameters are
the canvas size returned by the size query of this call (the answer of the
platform, or 800 x 600 when the query fails), converted to `unsigned`, and the
stored `fb_width` and `fb_height` equal the reported values; `quit` and `resize`
are false.  The conversion to `unsigned` leaves every non-negative size as it
is. -/
theorem check_window_reports_last_canvas_size (EMSCRIPTEN_RESULT_SUCCESS : Int)
    (emscripten : emscripten_ctx_data_t) (qs : List css_size_answer) (q : css_size_answer) :
    (gfx_ctx_emscripten_webgl_check_window EMSCRIPTEN_RESULT_SUCCESS q
        (check_window_run EMSCRIPTEN_RESULT_SUCCESS emscripten qs)).width
      = to_unsigned
          (gfx_ctx_emscripten_webgl_get_canvas_size EMSCRIPTEN_RESULT_SUCCESS q 0 0).1 ∧
    (gfx_ctx_emscripten_webgl_check_window EMSCRIPTEN_RESULT_SUCCESS q
        (check_window_run EMSCRIPTEN_RESULT_SUCCESS emscripten qs)).height
      = to_unsigned
          (gfx_ctx_emscripten_webgl_get_canvas_size EMSCRIPTEN_RESULT_SUCCESS q 0 0).2 ∧
    (gfx_ctx_emscripten_webgl_get_canvas_size EMSCRIPTEN_RESULT_SUCCESS q 0 0)
      = (if q.r = EMSCRIPTEN_RESULT_SUCCESS then (q.w, q.h) else (800, 600)) ∧
    (check_window_run EMSCRIPTEN_RESULT_SUCCESS emscripten (qs ++ [q])).fb_width
      = (gfx_ctx_emscripten_webgl_check_window EMSCRIPTEN_RESULT_SUCCESS q
          (check_window_run EMSCRIPTEN_RESULT_SUCCESS emscripten qs)).width ∧
    (check_window_run EMSCRIPTEN_RESULT_SUCCESS emscripten (qs ++ [q])).fb_height
      = (gfx_ctx_emscripten_webgl_check_window EMSCRIPTEN_RESULT_SUCCESS q
          (check_window_run EMSCRIPTEN_RESULT_SUCCESS emscripten qs)).height ∧
    (gfx_ctx_emscripten_webgl_check_window EMSCRIPTEN_RESULT_SUCCESS q
        (check_window_run EMSCRIPTEN_RESULT_SUCCESS emscripten qs)).quit = false ∧
    (gfx_ctx_emscripten_webgl_check_window EMSCRIPTEN_RESULT_SUCCESS q
        (check_window_run EMSCRIPTEN_RESULT_SUCCESS emscripten qs)).resize = false ∧
    (∀ v : Int, 0 ≤ v → v < 2 ^ 32 → (to_unsigned v : Int) = v) := by
  refine ⟨rfl, rfl, ?_, ?_, ?_, rfl, rfl, ?_⟩
  · unfold gfx_ctx_emscripten_webgl_get_canvas_size
    by_cases h : q.r = EMSCRIPTEN_RESULT_SUCCESS <;> simp [h]
  · unfold check_window_run
    rw [List.foldl_append]
    rfl
  · unfold check_window_run
    rw [List.foldl_append]
    rfl
  · intro v h0 h1
    rw [to_unsigned_of_lt v h0 h1]
    exact Int.toNat_of_nonneg h0

/-- C9: `gfx_ctx_emscripten_webgl_init` returns `NULL` whenever `calloc` fails or
`emscripten_webgl_create_context` returns 0; otherwise it returns a non-`NULL`
handle, the address `calloc` returned, whose `ctx` field is the non-zero context
that was created. -/
theorem webgl_init_reports_failure (env : webgl_init_env)
    (heap : Nat → emscripten_ctx_data_t) (video_driver : Nat) :
    if env.calloc_result = 0 ∨ env.create_context_result = 0 then
      (gfx_ctx_emscripten_webgl_init env heap video_driver).ret = 0
    else
      (gfx_ctx_emscripten_webgl_init env heap video_driver).ret ≠ 0 ∧
      (gfx_ctx_emscripten_webgl_init env heap video_driver).ret = env.calloc_result ∧
      ((gfx_ctx_emscripten_webgl_init env heap video_driver).heap
          (gfx_ctx_emscripten_webgl_init env heap video_driver).ret).ctx
        = env.create_context_result ∧
      env.create_context_result ≠ 0 ∧
      native_call.emscripten_webgl_create_context env.create_context_result
        ∈ (gfx_ctx_emscripten_webgl_init env heap video_driver).calls := by
  unfold gfx_ctx_emscripten_webgl_init
  by_cases h1 : env.calloc_result = 0
  · simp [h1]
  · by_cases h2 : env.create_context_result = 0
    · simp [h1, h2]
    · simp [h1, h2]

/-- C10: `gfx_ctx_emscripten_webgl_destroy` called with `NULL` makes no native call
(no context is destroyed, nothing is freed); called with a non-`NULL` handle it
makes exactly two calls: it destroys the WebGL context of that handle, once, and
then frees the handle, once. -/
theorem webgl_destroy_releases_once (heap : Nat → emscripten_ctx_data_t) (data : Nat) :
    if data = 0 then gfx_ctx_emscripten_webgl_destroy heap data = []
    else
      (gfx_ctx_emscripten_webgl_destroy heap data).filter is_destroy_context
        = [native_call.emscripten_webgl_destroy_context (heap data).ctx] ∧
      (gfx_ctx_emscripten_webgl_destroy heap data).filter is_free = [native_call.free data] ∧
      (gfx_ctx_emscripten_webgl_destroy heap data).length = 2 := by
  unfold gfx_ctx_emscripten_webgl_destroy
  by_cases h : data = 0
  · simp [h]
  · simp [h, is_destroy_context, is_free]


/-! ## Touch table: single events on reachable tables -/

theorem touch_run_reaches_inv (MAX_TOUCHES : Nat) (wl0 wl : gfx_ctx_wayland_data_t)
    (evs : List touch_event) (hempty : touch_table_empty MAX_TOUCHES wl0)
    (hrun : touch_run MAX_TOUCHES wl0 evs = some wl) : touch_inv MAX_TOUCHES wl := by
  obtain ⟨w, hw1, hw2⟩ := touch_run_inv MAX_TOUCHES wl0 evs
    (touch_table_empty_inv MAX_TOUCHES wl0 hempty).1
  rw [hrun] at hw1
  simp only [Option.some.injEq] at hw1
  rw [hw1]
  exact hw2

theorem touch_handle_up_loop_no_match (id : Int) (fuel i : Nat) (wl : gfx_ctx_wayland_data_t)
    (h : ∀ k, i ≤ k → k < i + fuel → touch_matches id (wl.active_touch_positions k) = false) :
    touch_handle_up_loop id fuel i wl = wl := by
  induction fuel generalizing i with
  | zero => rfl
  | succ n ih =>
    unfold touch_handle_up_loop
    have hm := h i (le_refl _) (by omega)
    unfold touch_matches at hm
    rw [hm]
    simp only [Bool.false_eq_true, if_false]
    exact ih (i + 1) (fun k h1 h2 => h k (by omega) (by omega))

theorem reorder_touches_loop_packed (MAX_TOUCHES : Nat) (fuel i : Nat) (t : Nat → touch_pos)
    (hi : i + fuel = MAX_TOUCHES) (hp : touch_packed MAX_TOUCHES t) :
    reorder_touches_loop MAX_TOUCHES fuel i t = t := by
  induction fuel generalizing i with
  | zero => rfl
  | succ n ih =>
    unfold reorder_touches_loop
    by_cases hact : (t i).active = true
    · simp only [hact, Bool.not_true, Bool.false_eq_true, if_false]
      exact ih (i + 1) (by omega)
    · have hina : (t i).active = false := by simpa using hact
      simp only [hina, Bool.not_false, if_true]
      rcases reorder_touches_inner_spec MAX_TOUCHES i t (MAX_TOUCHES - (i + 1)) (i + 1) (by omega)
        with ⟨h1, _⟩ | ⟨m, h1, h2, h3, _, _⟩
      · rw [h1]
        exact ih (i + 1) (by omega)
      · have := hp i (by omega) hina m (by omega) h2
        rw [h3] at this
        exact absurd this (by simp)

theorem active_list_getElem_of_packed (MAX_TOUCHES : Nat) (t : Nat → touch_pos)
    (hp : touch_packed MAX_TOUCHES t) :
    ∀ k, k < num_active_slots MAX_TOUCHES t → (active_list MAX_TOUCHES t)[k]? = some (t k) := by
  induction MAX_TOUCHES with
  | zero =>
    intro k hk
    have := num_active_slots_le 0 t
    omega
  | succ n ih =>
    have hp' : touch_packed n t := fun k hk hk2 m hm1 hm2 => hp k (by omega) hk2 m hm1 (by omega)
    have ih' := ih hp'
    have hle := num_active_slots_le n t
    intro k hk
    rw [active_list_succ]
    by_cases hn : (t n).active = true
    · rw [if_pos hn]
      have hfull : num_active_slots n t = n := by
        rcases Nat.eq_zero_or_pos n with h0 | hpos
        · omega
        · have hlast : (t (n - 1)).active = true := by
            by_contra hc
            have hc' : (t (n - 1)).active = false := by simpa using hc
            have := hp (n - 1) (by omega) hc' n (by omega) (by omega)
            rw [hn] at this
            exact absurd this (by simp)
          have := (active_iff_lt_of_packed n t hp' (n - 1) (by omega)).1 hlast
          omega
      have hlen : (active_list n t).length = n := hfull
      by_cases hkn : k < n
      · rw [List.getElem?_append_left (by omega)]
        exact ih' k (by omega)
      · have hk' : num_active_slots (n + 1) t ≤ n + 1 := num_active_slots_le (n + 1) t
        have hkeq : k = n := by omega
        subst hkeq
        rw [List.getElem?_append_right (by omega), hlen]
        simp
    · rw [if_neg hn, List.append_nil]
      have hsame : num_active_slots (n + 1) t = num_active_slots n t := by
        unfold num_active_slots
        rw [active_list_succ, if_neg hn, List.append_nil]
      exact ih' k (by omega)

theorem touch_example_reachable :
    touch_run 3 wl_zero [touch_event.down 5 256 256, touch_event.down 7 512 768]
      = some touch_example := rfl

/-- C18: `touch_handle_up` is a stable removal.  In every touch table reachable
from the empty table and for every `id`, after `touch_handle_up (id)` the active
touches read in slot order are exactly the touches that were active with an id
other than `id`, in the same order and each with its id, x and y unchanged; they
are packed into the lowest slots (slot `k` holds the `k`-th of them and slot `i`
is active exactly when `i` is below their number, which is the new
`num_active_touches`); if no active slot holds `id` the table is unchanged. -/
theorem touch_handle_up_stable_removal (MAX_TOUCHES : Nat)
    (wl0 wl : gfx_ctx_wayland_data_t) (evs : List touch_event) (id : Int)
    (hempty : touch_table_empty MAX_TOUCHES wl0)
    (hrun : touch_run MAX_TOUCHES wl0 evs = some wl) :
    active_list MAX_TOUCHES (touch_handle_up MAX_TOUCHES wl id).active_touch_positions
      = (active_list MAX_TOUCHES wl.active_touch_positions).filter (fun s => !(s.id == id)) ∧
    (touch_handle_up MAX_TOUCHES wl id).num_active_touches
      = (((active_list MAX_TOUCHES wl.active_touch_positions).filter
          (fun s => !(s.id == id))).length : Int) ∧
    (∀ i, i < MAX_TOUCHES →
      (((touch_handle_up MAX_TOUCHES wl id).active_touch_positions i).active = true ↔
        (i : Int) < (touch_handle_up MAX_TOUCHES wl id).num_active_touches)) ∧
    (∀ k, k < ((active_list MAX_TOUCHES wl.active_touch_positions).filter
          (fun s => !(s.id == id))).length →
      ((active_list MAX_TOUCHES wl.active_touch_positions).filter
          (fun s => !(s.id == id)))[k]?
        = some ((touch_handle_up MAX_TOUCHES wl id).active_touch_positions k)) ∧
    ((∀ i, i < MAX_TOUCHES → touch_matches id (wl.active_touch_positions i) = false) →
      touch_handle_up MAX_TOUCHES wl id = wl) := by
  have hinv := touch_run_reaches_inv MAX_TOUCHES wl0 wl evs hempty hrun
  have hinv' := (touch_handle_up_inv MAX_TOUCHES wl id (fun _ => True) hinv
    (fun _ _ _ => trivial)).1
  obtain ⟨_, hu2, hu3⟩ := touch_handle_up_loop_spec id MAX_TOUCHES 0 wl
  -- the table after the clearing loop
  have hslots : touch_slots MAX_TOUCHES
        (touch_handle_up_loop id MAX_TOUCHES 0 wl).active_touch_positions
      = (touch_slots MAX_TOUCHES wl.active_touch_positions).map
          (fun s => if touch_matches id s = true then touch_cleared else s) := by
    unfold touch_slots
    rw [List.map_map]
    apply List.map_congr_left
    intro a ha
    rw [List.mem_range] at ha
    rw [hu3 a, if_pos ⟨Nat.zero_le _, by omega⟩]
    rfl
  have hfilter : ∀ l : List touch_pos,
      (l.map (fun s => if touch_matches id s = true then touch_cleared else s)).filter
          (fun s => s.active)
        = (l.filter (fun s => s.active)).filter (fun s => !(s.id == id)) := by
    intro l
    induction l with
    | nil => rfl
    | cons a l ih =>
      rw [List.map_cons, List.filter_cons, List.filter_cons, ih]
      by_cases ha : a.active = true
      · by_cases hid : a.id = id
        · have hm : touch_matches id a = true := by unfold touch_matches; simp [ha, hid]
          simp [hm, ha, hid, touch_cleared]
        · have hm : ¬ touch_matches id a = true := by unfold touch_matches; simp [ha, hid]
          simp [hm, ha, hid]
      · have hm : ¬ touch_matches id a = true := by unfold touch_matches; simp [ha]
        simp [hm, ha]
  have hloop : active_list MAX_TOUCHES
        (touch_handle_up_loop id MAX_TOUCHES 0 wl).active_touch_positions
      = (active_list MAX_TOUCHES wl.active_touch_positions).filter
          (fun s => !(s.id == id)) := by
    unfold active_list
    rw [hslots, hfilter]
  have hlist : active_list MAX_TOUCHES
        (touch_handle_up MAX_TOUCHES wl id).active_touch_positions
      = (active_list MAX_TOUCHES wl.active_touch_positions).filter
          (fun s => !(s.id == id)) := by
    rw [← hloop]
    unfold touch_handle_up reorder_touches
    by_cases hz : (touch_handle_up_loop id MAX_TOUCHES 0 wl).num_active_touches = 0
    · rw [if_pos hz]
    · rw [if_neg hz]
      exact (reorder_touches_loop_spec MAX_TOUCHES MAX_TOUCHES 0
        (touch_handle_up_loop id MAX_TOUCHES 0 wl).active_touch_positions (by omega)
        (fun k hk => by omega)).1
  have hnum := num_active_slots_of_inv MAX_TOUCHES _ hinv'
  unfold num_active_slots at hnum
  rw [hlist] at hnum
  refine ⟨hlist, hnum, hinv'.2.2, fun k hk => ?_, fun hno => ?_⟩
  · have := active_list_getElem_of_packed MAX_TOUCHES _
      (touch_packed_of_inv MAX_TOUCHES _ hinv') k (by
        unfold num_active_slots
        rw [hlist]
        exact hk)
    rw [hlist] at this
    exact this
  · unfold touch_handle_up
    rw [touch_handle_up_loop_no_match id MAX_TOUCHES 0 wl
      (fun k _ h2 => hno k (by omega))]
    unfold reorder_touches
    by_cases hz : wl.num_active_touches = 0
    · rw [if_pos hz]
    · rw [if_neg hz, reorder_touches_loop_packed MAX_TOUCHES MAX_TOUCHES 0 _ (by omega)
        (touch_packed_of_inv MAX_TOUCHES wl hinv)]

theorem touch_handle_up_stable_removal_witness :
    active_list 3 (touch_handle_up 3 touch_example 5).active_touch_positions
      = (active_list 3 touch_example.active_touch_positions).filter
          (fun s => !(s.id == 5)) ∧
    (touch_handle_up 3 touch_example 5).num_active_touches
      = (((active_list 3 touch_example.active_touch_positions).filter
          (fun s => !(s.id == 5))).length : Int) ∧
    (∀ i, i < 3 →
      (((touch_handle_up 3 touch_example 5).active_touch_positions i).active = true ↔
        (i : Int) < (touch_handle_up 3 touch_example 5).num_active_touches)) ∧
    (∀ k, k < ((active_list 3 touch_example.active_touch_positions).filter
          (fun s => !(s.id == 5))).length →
      ((active_list 3 touch_example.active_touch_positions).filter
          (fun s => !(s.id == 5)))[k]?
        = some ((touch_handle_up 3 touch_example 5).active_touch_positions k)) ∧
    ((∀ i, i < 3 → touch_matches 5 (touch_example.active_touch_positions i) = false) →
      touch_handle_up 3 touch_example 5 = touch_example) :=
  touch_handle_up_stable_removal 3 wl_zero touch_example
    [touch_event.down 5 256 256, touch_event.down 7 512 768] 5
    ⟨rfl, fun _ _ => rfl⟩ rfl



/-! ## Key aliases and loss of focus -/

theorem set_byte_bit (b k j : Nat) (hk : k < 8) (hj : j < 8) :
    (((b ||| (1 <<< k)) % 256) >>> j) &&& 1
      = if j = k then 1 else (b >>> j) &&& 1 := by
  rw [get_bit_eq, get_bit_eq]
  have h256 : (256 : Nat) = 2 ^ 8 := by norm_num
  rw [h256, Nat.testBit_mod_two_pow, Nat.testBit_lor]
  have hm : (1 <<< k).testBit j = decide (j = k) := by
    interval_cases k <;> interval_cases j <;> decide
  rw [hm]
  by_cases hjk : j = k
  · simp [hjk, hk]
  · simp [hjk, hj]

theorem BIT_SET_spec (size : Nat) (a : Nat → Nat) (bit : Nat) (h : bit < 8 * size) :
    ∃ a', BIT_SET size a bit = some a' ∧ BIT_GET a' bit = 1 ∧
      ∀ other, other ≠ bit → BIT_GET a' other = BIT_GET a other := by
  unfold BIT_SET
  rw [if_pos (shift_three_lt bit size h)]
  refine ⟨_, rfl, ?_, fun other hne => ?_⟩
  · unfold BIT_GET
    rw [Function.update_same, set_byte_bit _ _ _ (and_seven_lt bit) (and_seven_lt bit)]
    simp
  · unfold BIT_GET
    by_cases hb : other >>> 3 = bit >>> 3
    · rw [hb, Function.update_same,
        set_byte_bit _ _ _ (and_seven_lt bit) (and_seven_lt other)]
      have hk : other &&& 7 ≠ bit &&& 7 := fun hc => hne (bit_index_ext other bit hb hc)
      rw [if_neg hk]
    · rw [Function.update_noteq hb]

/-- C12: key aliasing in `keyboard_handle_key` is last-writer-wins.  For every key
code inside the bitmap (which also covers `KEY_CLEAR`) and every state the call
runs without a fault, and the key code the event is recorded under (the keysym it
hands on for translation, whose bit it sets on a press and clears on a release)
is `KEY_CLEAR` for each of `KEY_OK`, `KEY_SELECT` and `KEY_EXIT`, and the
unmodified key code for every other key; no other bit changes. -/
theorem keyboard_alias_last_writer_wins (c : keyboard_consts) (wl : gfx_ctx_wayland_data_t)
    (key state : Nat)
    (hkey : key < 8 * c.UDEV_MAX_KEYS) (hclear : c.KEY_CLEAR < 8 * c.UDEV_MAX_KEYS) :
    ∃ r, keyboard_handle_key c wl key state = some r ∧
      r.keysym
        = (if key = c.KEY_OK ∨ key = c.KEY_SELECT ∨ key = c.KEY_EXIT then c.KEY_CLEAR
           else key) ∧
      (if state = c.WL_KEYBOARD_KEY_STATE_PRESSED then
          BIT_GET r.wl.input.key_state r.keysym = 1
        else if state = c.WL_KEYBOARD_KEY_STATE_RELEASED then
          BIT_GET r.wl.input.key_state r.keysym = 0
        else BIT_GET r.wl.input.key_state r.keysym = BIT_GET wl.input.key_state r.keysym) ∧
      ∀ bit, bit ≠ r.keysym →
        BIT_GET r.wl.input.key_state bit = BIT_GET wl.input.key_state bit := by
  have hk := keyboard_keysym_cases c key
  have hrange : keyboard_keysym c key < 8 * c.UDEV_MAX_KEYS := by
    rw [hk]
    split_ifs
    · exact hclear
    · exact hkey
  unfold keyboard_handle_key
  simp only []
  by_cases hp : state = c.WL_KEYBOARD_KEY_STATE_PRESSED
  · obtain ⟨a', h1, h2, h3⟩ :=
      BIT_SET_spec c.UDEV_MAX_KEYS wl.input.key_state (keyboard_keysym c key) hrange
    rw [if_pos hp, h1]
    refine ⟨_, rfl, hk, ?_, h3⟩
    rw [if_pos hp]
    exact h2
  · by_cases hr : state = c.WL_KEYBOARD_KEY_STATE_RELEASED
    · obtain ⟨a', h1, h2, h3⟩ :=
        BIT_CLEAR_spec c.UDEV_MAX_KEYS wl.input.key_state (keyboard_keysym c key) hrange
      rw [if_neg hp, if_pos hr, h1]
      refine ⟨_, rfl, hk, ?_, h3⟩
      rw [if_neg hp, if_pos hr]
      exact h2
    · rw [if_neg hp, if_neg hr]
      refine ⟨_, rfl, hk, ?_, fun _ _ => rfl⟩
      rw [if_neg hp, if_neg hr]

theorem keyboard_alias_last_writer_wins_witness :
    ∃ r, keyboard_handle_key linux_keyboard_consts wl_zero 0x161 1 = some r ∧
      r.keysym
        = (if 0x161 = linux_keyboard_consts.KEY_OK ∨ 0x161 = linux_keyboard_consts.KEY_SELECT
              ∨ 0x161 = linux_keyboard_consts.KEY_EXIT then linux_keyboard_consts.KEY_CLEAR
           else 0x161) ∧
      (if 1 = linux_keyboard_consts.WL_KEYBOARD_KEY_STATE_PRESSED then
          BIT_GET r.wl.input.key_state r.keysym = 1
        else if 1 = linux_keyboard_consts.WL_KEYBOARD_KEY_STATE_RELEASED then
          BIT_GET r.wl.input.key_state r.keysym = 0
        else BIT_GET r.wl.input.key_state r.keysym
          = BIT_GET wl_zero.input.key_state r.keysym) ∧
      ∀ bit, bit ≠ r.keysym →
        BIT_GET r.wl.input.key_state bit = BIT_GET wl_zero.input.key_state bit :=
  keyboard_alias_last_writer_wins linux_keyboard_consts wl_zero 0x161 1
    (by decide) (by decide)

/-- C17, the code at the failing input: with the Linux key codes, a press of
`KEY_OK` on a fresh context is recorded under `KEY_CLEAR` (`0x163`), not under
`KEY_ENTER` (`28`): the keysym handed on is `KEY_CLEAR`, the `KEY_CLEAR` bit of
`key_state` is set and the `KEY_ENTER` bit stays 0.  The same holds for
`KEY_SELECT`. -/
theorem keyboard_key_ok_recorded_as_clear :
    (∃ r, keyboard_handle_key linux_keyboard_consts wl_zero
          linux_keyboard_consts.KEY_OK linux_keyboard_consts.WL_KEYBOARD_KEY_STATE_PRESSED
        = some r ∧
      r.keysym = linux_keyboard_consts.KEY_CLEAR ∧
      r.keysym ≠ linux_keyboard_consts.KEY_ENTER ∧
      BIT_GET r.wl.input.key_state linux_keyboard_consts.KEY_CLEAR = 1 ∧
      BIT_GET r.wl.input.key_state linux_keyboard_consts.KEY_ENTER = 0) ∧
    (∃ r, keyboard_handle_key linux_keyboard_consts wl_zero
          linux_keyboard_consts.KEY_SELECT linux_keyboard_consts.WL_KEYBOARD_KEY_STATE_PRESSED
        = some r ∧
      r.keysym = linux_keyboard_consts.KEY_CLEAR ∧
      r.keysym ≠ linux_keyboard_consts.KEY_ENTER ∧
      BIT_GET r.wl.input.key_state linux_keyboard_consts.KEY_CLEAR = 1 ∧
      BIT_GET r.wl.input.key_state linux_keyboard_consts.KEY_ENTER = 0) :=
  ⟨⟨_, rfl, by decide, by decide, by decide, by decide⟩,
    ⟨_, rfl, by decide, by decide, by decide, by decide⟩⟩

/-- C14, amended: loss of focus leaves the touch table as it is.  For every
state, after `keyboard_handle_leave` and after `pointer_handle_leave` every touch
slot and `num_active_touches` are as before the call; `keyboard_handle_leave`
changes `keyboard_focus` and `key_state` only, `pointer_handle_leave` the mouse
fields only. -/
theorem leave_keeps_touch_table (c : keyboard_consts) (wl : gfx_ctx_wayland_data_t)
    (surface : Nat) :
    (keyboard_handle_leave c wl).num_active_touches = wl.num_active_touches ∧
    (keyboard_handle_leave c wl).active_touch_positions = wl.active_touch_positions ∧
    (keyboard_handle_leave c wl).input.mouse = wl.input.mouse ∧
    (pointer_handle_leave wl surface).num_active_touches = wl.num_active_touches ∧
    (pointer_handle_leave wl surface).active_touch_positions = wl.active_touch_positions ∧
    (pointer_handle_leave wl surface).input.key_state = wl.input.key_state ∧
    (pointer_handle_leave wl surface).input.keyboard_focus = wl.input.keyboard_focus ∧
    (pointer_handle_leave wl surface).input.mouse.focus = false :=
  ⟨rfl, rfl, rfl, rfl, rfl, rfl, rfl, rfl⟩

/-- C14, the claim as stated fails: in the table `touch_example` (two touches
down, reached from the empty table) slot 0 is active and the counter is 2, and
both are so after `keyboard_handle_leave` and after `pointer_handle_leave`. -/
theorem leave_does_not_clear_touches :
    ((keyboard_handle_leave linux_keyboard_consts touch_example).active_touch_positions 0).active
      = true ∧
    (keyboard_handle_leave linux_keyboard_consts touch_example).num_active_touches = 2 ∧
    ((pointer_handle_leave touch_example 0).active_touch_positions 0).active = true ∧
    (pointer_handle_leave touch_example 0).num_active_touches = 2 := by
  refine ⟨by decide, by decide, by decide, by decide⟩


/-! ## Swap interval and the failure path of `init` -/

/-- C11: `gfx_ctx_emscripten_webgl_swap_interval` honours the configured
interval.  For every interval it selects `EM_TIMING_RAF` with exactly that
interval when `interval != 0` and the global `vsync` flag is true, and it selects
`EM_TIMING_SETIMMEDIATE` with value 0 exactly when `interval == 0` or `vsync` is
false. -/
theorem swap_interval_honours_interval (c : em_timing_consts) (vsync : Bool)
    (interval : Int) :
    gfx_ctx_emscripten_webgl_swap_interval c vsync interval
      = (if interval ≠ 0 ∧ vsync = true then
          { mode := c.EM_TIMING_RAF, value := interval }
         else { mode := c.EM_TIMING_SETIMMEDIATE, value := 0 }) ∧
    (gfx_ctx_emscripten_webgl_swap_interval c vsync interval
        = { mode := c.EM_TIMING_SETIMMEDIATE, value := 0 } ↔
      (interval = 0 ∨ vsync = false)) := by
  unfold gfx_ctx_emscripten_webgl_swap_interval
  by_cases hi : interval = 0
  · simp [hi]
  · cases vsync with
    | false => simp [hi]
    | true => simp [hi]

/-- C15, the code at the failing input: `calloc` returns the address 1000,
`emscripten_webgl_create_context` returns 0, and `init` was called with
`video_driver = 2000`, behind which the bytes read as `ctx` are 7.  `init`
returns `NULL`; its native calls are `calloc`, the attribute initialisation,
`create_context`, then `emscripten_webgl_destroy_context (7)` and `free (2000)`:
the context data at 1000 that `init` allocated is never freed, and the argument
of the caller is freed. -/
theorem webgl_init_error_path_frees_video_driver :
    (gfx_ctx_emscripten_webgl_init
        { calloc_result := 1000, create_context_result := 0,
          scaled_width := 0, scaled_height := 0 }
        (fun _ => { ctx := 7, fb_width := 0, fb_height := 0 }) 2000).ret = 0 ∧
    (gfx_ctx_emscripten_webgl_init
        { calloc_result := 1000, create_context_result := 0,
          scaled_width := 0, scaled_height := 0 }
        (fun _ => { ctx := 7, fb_width := 0, fb_height := 0 }) 2000).calls
      = [native_call.calloc 1000, native_call.emscripten_webgl_init_context_attributes,
         native_call.emscripten_webgl_create_context 0,
         native_call.emscripten_webgl_destroy_context 7, native_call.free 2000] ∧
    native_call.free 1000 ∉
      (gfx_ctx_emscripten_webgl_init
        { calloc_result := 1000, create_context_result := 0,
          scaled_width := 0, scaled_height := 0 }
        (fun _ => { ctx := 7, fb_width := 0, fb_height := 0 }) 2000).calls ∧
    (gfx_ctx_emscripten_webgl_init
        { calloc_result := 1000, create_context_result := 0,
          scaled_width := 0, scaled_height := 0 }
        (fun _ => { ctx := 7, fb_width := 0, fb_height := 0 }) 0).calls
      = [native_call.calloc 1000, native_call.emscripten_webgl_init_context_attributes,
         native_call.emscripten_webgl_create_context 0] := by
  refine ⟨by decide, by decide, by decide, by decide⟩


/-! ## Splash screen -/

theorem int_checked_of_nat (n : Nat) (h : n < 2 ^ 31) : int_checked (n : Int) = some (n : Int) := by
  show int_checked (Int.ofNat n) = some (Int.ofNat n)
  simp only [int_checked, if_pos h]

theorem int_checked_eq_some_iff (v : Int) :
    int_checked v = some v ↔ -(2 ^ 31) ≤ v ∧ v < 2 ^ 31 := by
  cases v with
  | ofNat n =>
    have hc : ((n : Nat) : Int) < 2 ^ 31 ↔ n < 2 ^ 31 := by
      constructor <;> intro h <;> exact_mod_cast h
    have h0 : (0 : Int) ≤ ((n : Nat) : Int) := Int.ofNat_nonneg n
    show int_checked (Int.ofNat n) = some (Int.ofNat n) ↔ _ ∧ ((n : Nat) : Int) < 2 ^ 31
    by_cases h : n < 2 ^ 31
    · simp only [int_checked, if_pos h, true_iff]
      exact ⟨by show -(2 ^ 31) ≤ ((n : Nat) : Int); omega, hc.2 h⟩
    · simp only [int_checked, if_neg h]
      constructor
      · intro hc'; exact absurd hc' (by simp)
      · intro hlt; exact absurd (hc.1 hlt.2) h
  | negSucc n =>
    have e : Int.negSucc n = -((n : Int) + 1) := Int.negSucc_eq n
    by_cases h : n < 2 ^ 31
    · simp only [int_checked, if_pos h, true_iff]
      rw [e]
      constructor <;> omega
    · simp only [int_checked, if_neg h]
      rw [e]
      constructor
      · intro hc'; exact absurd hc' (by simp)
      · intro hlt; omega

theorem int_checked_eq_none_iff (v : Int) :
    int_checked v = none ↔ ¬ (-(2 ^ 31) ≤ v ∧ v < 2 ^ 31) := by
  rw [← int_checked_eq_some_iff]
  cases v with
  | ofNat n =>
    by_cases h : n < 2 ^ 31
    · simp [int_checked, h]
    · simp [int_checked, h]
  | negSucc n =>
    by_cases h : n < 2 ^ 31
    · simp [int_checked, h]
    · simp [int_checked, h]

theorem for_range_total {σ : Type} (body : Nat → σ → Option σ) (f : Nat → σ → σ)
    (fuel i0 : Nat) (s : σ)
    (h : ∀ i s, i0 ≤ i → i < i0 + fuel → body i s = some (f i s)) :
    for_range body fuel i0 s
      = some ((List.range' i0 fuel).foldl (fun s i => f i s) s) := by
  induction fuel generalizing i0 s with
  | zero => rfl
  | succ n ih =>
    unfold for_range
    rw [h i0 s (le_refl _) (by omega)]
    simp only []
    rw [ih (i0 + 1) _ (fun i s h1 h2 => h i s (by omega) (by omega))]
    rw [List.range'_succ, List.foldl_cons]

theorem foldl_range'_congr {σ : Type} (f g : Nat → σ → σ) (i0 n : Nat) (s : σ)
    (h : ∀ i s, i0 ≤ i → i < i0 + n → f i s = g i s) :
    (List.range' i0 n).foldl (fun s i => f i s) s
      = (List.range' i0 n).foldl (fun s i => g i s) s := by
  induction n generalizing i0 s with
  | zero => rfl
  | succ n ih =>
    rw [List.range'_succ, List.foldl_cons, List.foldl_cons, h i0 s (le_refl _) (by omega)]
    exact ih (i0 + 1) _ (fun i s h1 h2 => h i s (by omega) (by omega))

theorem foldl_product {α β σ : Type} (f : σ → α × β → σ) (l1 : List α) (l2 : List β) (s : σ) :
    (List.product l1 l2).foldl f s
      = l1.foldl (fun acc a => l2.foldl (fun acc b => f acc (a, b)) acc) s := by
  induction l1 generalizing s with
  | nil => rfl
  | cons a l1 ih =>
    have hcons : List.product (a :: l1) l2 = l2.map (Prod.mk a) ++ List.product l1 l2 := rfl
    rw [hcons, List.foldl_append, List.foldl_map, List.foldl_cons, ih]

theorem offset_unique (n a b a' b' : Nat) (ha : a < n) (ha' : a' < n)
    (h : a + b * n = a' + b' * n) : a = a' ∧ b = b' := by
  have h1 : (a + b * n) % n = (a' + b' * n) % n := by rw [h]
  rw [Nat.add_mul_mod_self_right, Nat.add_mul_mod_self_right, Nat.mod_eq_of_lt ha,
    Nat.mod_eq_of_lt ha'] at h1
  subst h1
  have h2 : b * n = b' * n := by omega
  exact ⟨rfl, Nat.eq_of_mul_eq_mul_right (by omega) h2⟩

theorem offset_lt (A B a b : Nat) (ha : a < A) (hb : b < B) : a + b * A < A * B := by
  have h1 : (b + 1) * A ≤ B * A := Nat.mul_le_mul_right A (by omega)
  rw [Nat.add_mul, Nat.one_mul] at h1
  rw [Nat.mul_comm A B]
  omega

theorem mem_paint_cells (W H s : Nat) (c : Nat × Nat × Nat × Nat) :
    c ∈ paint_cells W H s ↔ c.1 < H ∧ c.2.1 < W ∧ c.2.2.1 < s ∧ c.2.2.2 < s := by
  obtain ⟨y, x, sx, sy⟩ := c
  show (y, x, sx, sy) ∈ List.range H ×ˢ (List.range W ×ˢ (List.range s ×ˢ List.range s)) ↔ _
  simp only [List.mem_product, List.mem_range]

theorem paint_cells_nodup (W H s : Nat) : (paint_cells W H s).Nodup :=
  List.Nodup.product (List.nodup_range H)
    (List.Nodup.product (List.nodup_range W)
      (List.Nodup.product (List.nodup_range s) (List.nodup_range s)))

theorem paint_cell_lt (W s : Nat) (c : Nat × Nat × Nat × Nat)
    (hx : c.2.1 < W) (hsx : c.2.2.1 < s) : c.2.1 * s + c.2.2.1 < W * s := by
  have := offset_lt s W c.2.2.1 c.2.1 hsx hx
  rw [Nat.mul_comm s W] at this
  omega

theorem paint_offset_lt (W H s : Nat) (c : Nat × Nat × Nat × Nat)
    (hc : c ∈ paint_cells W H s) : paint_offset s (W * s) c < (W * s) * (H * s) := by
  rw [mem_paint_cells] at hc
  obtain ⟨hy, hx, hsx, hsy⟩ := hc
  unfold paint_offset
  have h2 : c.1 * s + c.2.2.2 < H * s := by
    have := offset_lt s H c.2.2.2 c.1 hsy hy
    rw [Nat.mul_comm s H] at this
    omega
  exact offset_lt (W * s) (H * s) _ _ (paint_cell_lt W s c hx hsx) h2

theorem paint_offset_inj (W H s : Nat) (c c' : Nat × Nat × Nat × Nat)
    (hc : c ∈ paint_cells W H s) (hc' : c' ∈ paint_cells W H s)
    (h : paint_offset s (W * s) c = paint_offset s (W * s) c') : c = c' := by
  rw [mem_paint_cells] at hc hc'
  obtain ⟨hy, hx, hsx, hsy⟩ := hc
  obtain ⟨hy', hx', hsx', hsy'⟩ := hc'
  unfold paint_offset at h
  obtain ⟨h1, h2⟩ := offset_unique (W * s) _ _ _ _ (paint_cell_lt W s c hx hsx)
    (paint_cell_lt W s c' hx' hsx') h
  obtain ⟨h3, h4⟩ := offset_unique s c.2.2.1 c.2.1 c'.2.2.1 c'.2.1 hsx hsx' (by omega)
  obtain ⟨h5, h6⟩ := offset_unique s c.2.2.2 c.1 c'.2.2.2 c'.1 hsy hsy' (by omega)
  obtain ⟨y, x, sx, sy⟩ := c
  obtain ⟨y', x', sx', sy'⟩ := c'
  simp only [Prod.mk.injEq]
  exact ⟨h6, h4, h3, h5⟩

theorem paint_fold_written (off col : Nat × Nat × Nat × Nat → Nat)
    (cells : List (Nat × Nat × Nat × Nat)) (st : paint_state) :
    (cells.foldl (fun st c => paint_store (off c) (col c) st) st).written
      = st.written ++ cells.map off := by
  induction cells generalizing st with
  | nil => simp
  | cons c cs ih =>
    rw [List.foldl_cons, ih]
    simp [paint_store]

theorem paint_fold_untouched (off col : Nat × Nat × Nat × Nat → Nat)
    (cells : List (Nat × Nat × Nat × Nat)) (st : paint_state) (o : Nat)
    (h : ∀ c, c ∈ cells → off c ≠ o) :
    (cells.foldl (fun st c => paint_store (off c) (col c) st) st).pixels o = st.pixels o := by
  induction cells generalizing st with
  | nil => rfl
  | cons c cs ih =>
    rw [List.foldl_cons, ih _ (fun c' hc' => h c' (List.mem_cons_of_mem _ hc'))]
    have := h c (List.mem_cons_self _ _)
    simp only [paint_store, Function.update_apply]
    rw [if_neg (fun hc => this hc.symm)]

theorem paint_fold_pixel (off col : Nat × Nat × Nat × Nat → Nat)
    (cells : List (Nat × Nat × Nat × Nat)) (st : paint_state) (o v : Nat)
    (hex : ∃ c, c ∈ cells ∧ off c = o)
    (hall : ∀ c, c ∈ cells → off c = o → col c = v) :
    (cells.foldl (fun st c => paint_store (off c) (col c) st) st).pixels o = v := by
  induction cells generalizing st with
  | nil =>
    obtain ⟨c, hc, _⟩ := hex
    exact absurd hc (List.not_mem_nil _)
  | cons c cs ih =>
    rw [List.foldl_cons]
    by_cases hrest : ∃ c', c' ∈ cs ∧ off c' = o
    · exact ih _ hrest (fun c' hc' => hall c' (List.mem_cons_of_mem _ hc'))
    · have hno : ∀ c', c' ∈ cs → off c' ≠ o := fun c' hc' hoff => hrest ⟨c', hc', hoff⟩
      rw [paint_fold_untouched off col cs _ o hno]
      obtain ⟨c0, hc0, hoff0⟩ := hex
      have hc : off c = o := by
        rcases List.mem_cons.1 hc0 with h1 | h1
        · rw [← h1]; exact hoff0
        · exact absurd hoff0 (hno c0 h1)
      simp only [paint_store, Function.update_apply]
      rw [if_pos hc.symm]
      exact hall c (List.mem_cons_self _ _) hc


theorem paint_pixel_total (W H s color x y sx sy : Nat) (st : paint_state)
    (hx : x < W) (hy : y < H) (hsx : sx < s) (hsy : sy < s)
    (hfit : (W * s) * (H * s) ≤ 2 ^ 31) :
    paint_pixel (s : Int) ((W * s : Nat) : Int) color x y sx sy st
      = some (paint_store (paint_offset s (W * s) (y, x, sx, sy)) color st) := by
  have hmem : (y, x, sx, sy) ∈ paint_cells W H s := by
    rw [mem_paint_cells]
    exact ⟨hy, hx, hsx, hsy⟩
  have hoff := paint_offset_lt W H s _ hmem
  unfold paint_offset at hoff
  simp only [] at hoff
  have hrow := paint_cell_lt W s (y, x, sx, sy) hx hsx
  simp only [] at hrow
  have h1 : x * s < 2 ^ 31 := by omega
  have h2 : x * s + sx < 2 ^ 31 := by omega
  have h5 : (y * s + sy) * (W * s) < 2 ^ 31 := by omega
  have hW : 0 < W * s := by omega
  have h3 : y * s + sy < 2 ^ 31 := by
    have : y * s + sy ≤ (y * s + sy) * (W * s) := Nat.le_mul_of_pos_right _ hW
    omega
  have h4 : y * s < 2 ^ 31 := by omega
  have h6 : x * s + sx + (y * s + sy) * (W * s) < 2 ^ 31 := by omega
  unfold paint_pixel
  rw [← Nat.cast_mul, int_checked_of_nat _ h1, Option.some_bind,
    ← Nat.cast_add, int_checked_of_nat _ h2, Option.some_bind,
    ← Nat.cast_mul, int_checked_of_nat _ h4, Option.some_bind,
    ← Nat.cast_add, int_checked_of_nat _ h3, Option.some_bind,
    ← Nat.cast_mul, int_checked_of_nat _ h5, Option.some_bind,
    ← Nat.cast_add, int_checked_of_nat _ h6, Option.some_bind, Int.toNat_ofNat]
  rfl

theorem paint_checkerboard_nat (b : shm_buffer_t) (W H s chk bg fg : Nat)
    (hstride : W * s < 2 ^ 31) (hfit : (W * s) * (H * s) ≤ 2 ^ 31) :
    shm_buffer_paint_checkerboard (some b) (W : Int) (H : Int) (s : Int) chk bg fg
      = some ((paint_cells W H s).foldl
          (fun st c =>
            paint_store (paint_offset s (W * s) c) (checkerboard_color chk bg fg c.2.1 c.1) st)
          { pixels := b.data, written := [] }) := by
  unfold shm_buffer_paint_checkerboard
  simp only []
  rw [← Nat.cast_mul, int_checked_of_nat _ hstride]
  simp only [Int.toNat_ofNat]
  rw [for_range_total _
    (fun y st => (List.range' 0 W).foldl (fun st x =>
      (List.range' 0 s).foldl (fun st sx =>
        (List.range' 0 s).foldl (fun st sy =>
          paint_store (paint_offset s (W * s) (y, x, sx, sy))
            (checkerboard_color chk bg fg x y) st) st) st) st)]
  · unfold paint_cells
    simp only [foldl_product, List.range_eq_range']
  · intro y st _ hy
    rw [for_range_total _
      (fun x st => (List.range' 0 s).foldl (fun st sx =>
        (List.range' 0 s).foldl (fun st sy =>
          paint_store (paint_offset s (W * s) (y, x, sx, sy))
            (checkerboard_color chk bg fg x y) st) st) st)]
    intro x st _ hx
    rw [for_range_total _
      (fun sx st => (List.range' 0 s).foldl (fun st sy =>
          paint_store (paint_offset s (W * s) (y, x, sx, sy))
            (checkerboard_color chk bg fg x y) st) st)]
    intro sx st _ hsx
    rw [for_range_total _
      (fun sy st => paint_store (paint_offset s (W * s) (y, x, sx, sy))
            (checkerboard_color chk bg fg x y) st)]
    intro sy st _ hsy
    exact paint_pixel_total W H s _ x y sx sy st (by omega) (by omega) (by omega) (by omega)
      hfit


theorem checkerboard_parity (k x y : Nat) :
    (x / 2 ^ k + y / 2 ^ k) % 2 = 1 ↔ (x &&& 2 ^ k) ^^^ (y &&& 2 ^ k) ≠ 0 := by
  have hx := Nat.toNat_testBit x k
  have hy := Nat.toNat_testBit y k
  have hpos : 0 < 2 ^ k := Nat.two_pow_pos k
  rw [Nat.and_two_pow, Nat.and_two_pow, Nat.add_mod, ← hx, ← hy]
  cases x.testBit k <;> cases y.testBit k <;> simp

theorem paint_fold_spec (b : shm_buffer_t) (W H s chk bg fg : Nat) (hs : 0 < s) :
    (∀ px py, px < W * s → py < H * s →
      ((paint_cells W H s).foldl
          (fun st c =>
            paint_store (paint_offset s (W * s) c) (checkerboard_color chk bg fg c.2.1 c.1) st)
          { pixels := b.data, written := [] }).pixels (px + py * (W * s))
        = checkerboard_color chk bg fg (px / s) (py / s)) ∧
    (∀ i, i ∈ ((paint_cells W H s).foldl
          (fun st c =>
            paint_store (paint_offset s (W * s) c) (checkerboard_color chk bg fg c.2.1 c.1) st)
          { pixels := b.data, written := [] }).written → i < (W * s) * (H * s)) ∧
    (∀ i, i < (W * s) * (H * s) →
      ((paint_cells W H s).foldl
          (fun st c =>
            paint_store (paint_offset s (W * s) c) (checkerboard_color chk bg fg c.2.1 c.1) st)
          { pixels := b.data, written := [] }).written.count i = 1) := by
  have hcell : ∀ px py, px < W * s → py < H * s →
      (py / s, px / s, px % s, py % s) ∈ paint_cells W H s ∧
      paint_offset s (W * s) (py / s, px / s, px % s, py % s) = px + py * (W * s) := by
    intro px py hpx hpy
    constructor
    · rw [mem_paint_cells]
      exact ⟨(Nat.div_lt_iff_lt_mul hs).2 hpy, (Nat.div_lt_iff_lt_mul hs).2 hpx,
        Nat.mod_lt _ hs, Nat.mod_lt _ hs⟩
    · unfold paint_offset
      simp only []
      rw [Nat.div_add_mod', Nat.div_add_mod']
  have hwritten := paint_fold_written (paint_offset s (W * s))
    (fun c => checkerboard_color chk bg fg c.2.1 c.1) (paint_cells W H s)
    { pixels := b.data, written := [] }
  simp only [List.nil_append] at hwritten
  refine ⟨fun px py hpx hpy => ?_, fun i hi => ?_, fun i hi => ?_⟩
  · obtain ⟨hmem, hoff⟩ := hcell px py hpx hpy
    apply paint_fold_pixel (paint_offset s (W * s))
      (fun c => checkerboard_color chk bg fg c.2.1 c.1)
    · exact ⟨_, hmem, hoff⟩
    · intro c' hc' hoff'
      have := paint_offset_inj W H s c' _ hc' hmem (hoff'.trans hoff.symm)
      rw [this]
  · rw [hwritten, List.mem_map] at hi
    obtain ⟨c, hc, rfl⟩ := hi
    exact paint_offset_lt W H s c hc
  · rw [hwritten]
    apply List.count_eq_one_of_mem
    · exact List.Nodup.map_on (fun c hc c' hc' h => paint_offset_inj W H s c c' hc hc' h)
        (paint_cells_nodup W H s)
    · have hWs : 0 < W * s := by
        rcases Nat.eq_zero_or_pos (W * s) with h0 | h0
        · rw [h0] at hi; omega
        · exact h0
      have hpy : i / (W * s) < H * s := (Nat.div_lt_iff_lt_mul hWs).2 (by
        rw [Nat.mul_comm (H * s)]; exact hi)
      obtain ⟨hmem, hoff⟩ := hcell (i % (W * s)) (i / (W * s)) (Nat.mod_lt _ hWs) hpy
      rw [List.mem_map]
      refine ⟨_, hmem, ?_⟩
      rw [hoff, Nat.add_comm, Nat.div_add_mod']


theorem for_range_skip {σ : Type} (body : Nat → σ → Option σ) (fuel i0 : Nat) (s : σ)
    (h : ∀ i s, body i s = some s) : for_range body fuel i0 s = some s := by
  induction fuel generalizing i0 with
  | zero => rfl
  | succ n ih =>
    unfold for_range
    rw [h i0 s]
    exact ih (i0 + 1)

/-- C19, amended: `shm_buffer_paint_checkerboard` paints a scaled checkerboard
when no `int` operation overflows.  For every width, height, `scale >= 1` and
`chk` a power of two such that `width*scale` is an `int` and, for a non-empty
image, `(width*scale)*(height*scale) <= 2^31`, the call returns and afterwards
the pixel at buffer index `px + py*(width*scale)`, for every `px < width*scale`
and `py < height*scale`, is `fg` when
`((px div scale) div chk) + ((py div scale) div chk)` is odd and `bg` when it is
even; the sum is odd exactly when `((x & chk) xor (y & chk)) != 0` for
`x = px div scale`, `y = py div scale`. -/
theorem shm_buffer_paint_checkerboard_pattern (b : shm_buffer_t)
    (width height scale : Int) (chk bg fg k : Nat)
    (hscale : 1 ≤ scale) (hchk : chk = 2 ^ k)
    (hstride : -(2 ^ 31) ≤ width * scale ∧ width * scale < 2 ^ 31)
    (hcount : 0 < width → 0 < height → (width * scale) * (height * scale) ≤ 2 ^ 31) :
    ∃ st, shm_buffer_paint_checkerboard (some b) width height scale chk bg fg = some st ∧
      ∀ px py : Nat, (px : Int) < width * scale → (py : Int) < height * scale →
        st.pixels (px + py * (width * scale).toNat)
          = (if ((px / scale.toNat) / chk + (py / scale.toNat) / chk) % 2 = 1 then fg
             else bg) ∧
        (((px / scale.toNat) / chk + (py / scale.toNat) / chk) % 2 = 1 ↔
          ((px / scale.toNat) &&& chk) ^^^ ((py / scale.toNat) &&& chk) ≠ 0) := by
  by_cases hpos : 0 < width ∧ 0 < height
  · obtain ⟨hw, hh⟩ := hpos
    obtain ⟨W, rfl⟩ := Int.eq_ofNat_of_zero_le (le_of_lt hw)
    obtain ⟨H, rfl⟩ := Int.eq_ofNat_of_zero_le (le_of_lt hh)
    obtain ⟨s, rfl⟩ := Int.eq_ofNat_of_zero_le (le_trans (by norm_num) hscale)
    have hs : 0 < s := by omega
    have h1 : W * s < 2 ^ 31 := by
      have := hstride.2
      exact_mod_cast this
    have h2 : (W * s) * (H * s) ≤ 2 ^ 31 := by
      have := hcount hw hh
      exact_mod_cast this
    have hWs : ((W : Int) * (s : Int)).toNat = W * s := by
      rw [← Nat.cast_mul, Int.toNat_ofNat]
    obtain ⟨hpix, _, _⟩ := paint_fold_spec b W H s chk bg fg hs
    refine ⟨_, paint_checkerboard_nat b W H s chk bg fg h1 h2, fun px py hpx hpy => ?_⟩
    have hpx' : px < W * s := by exact_mod_cast hpx
    have hpy' : py < H * s := by exact_mod_cast hpy
    have hpar := checkerboard_parity k (px / s) (py / s)
    rw [← hchk] at hpar
    rw [hWs, Int.toNat_ofNat, hpix px py hpx' hpy']
    refine ⟨?_, hpar⟩
    unfold checkerboard_color
    by_cases hodd : (px / s / chk + py / s / chk) % 2 = 1
    · rw [if_pos hodd, if_pos (hpar.1 hodd)]
    · rw [if_neg hodd, if_neg (fun h => hodd (hpar.2 h))]
  · have hstride' := (int_checked_eq_some_iff (width * scale)).2 hstride
    have hrun : shm_buffer_paint_checkerboard (some b) width height scale chk bg fg
        = some { pixels := b.data, written := [] } := by
      unfold shm_buffer_paint_checkerboard
      simp only [hstride']
      by_cases hh : 0 < height
      · have hw : width.toNat = 0 := by
          have : ¬ 0 < width := fun h => hpos ⟨h, hh⟩
          omega
        rw [hw]
        exact for_range_skip _ _ _ _ (fun _ _ => rfl)
      · have hz : height.toNat = 0 := by omega
        rw [hz]
        rfl
    refine ⟨_, hrun, fun px py hpx hpy => ?_⟩
    exfalso
    have hpx0 : (0 : Int) ≤ (px : Int) := Int.ofNat_nonneg px
    have hpy0 : (0 : Int) ≤ (py : Int) := Int.ofNat_nonneg py
    have hw : 0 < width := by
      by_contra hc
      have : width * scale ≤ 0 :=
        mul_nonpos_of_nonpos_of_nonneg (by omega) (by omega)
      omega
    have hh : 0 < height := by
      by_contra hc
      have : height * scale ≤ 0 :=
        mul_nonpos_of_nonpos_of_nonneg (by omega) (by omega)
      omega
    exact hpos ⟨hw, hh⟩

theorem shm_buffer_paint_checkerboard_pattern_witness :
    ∃ st, shm_buffer_paint_checkerboard
          (some { wl_buffer := 1, data := fun _ => 0, data_size := 64 }) 2 2 2 1 10 20
        = some st ∧
      ∀ px py : Nat, (px : Int) < 2 * 2 → (py : Int) < 2 * 2 →
        st.pixels (px + py * ((2 : Int) * 2).toNat)
          = (if ((px / (2 : Int).toNat) / 1 + (py / (2 : Int).toNat) / 1) % 2 = 1 then 20
             else 10) ∧
        (((px / (2 : Int).toNat) / 1 + (py / (2 : Int).toNat) / 1) % 2 = 1 ↔
          ((px / (2 : Int).toNat) &&& 1) ^^^ ((py / (2 : Int).toNat) &&& 1) ≠ 0) :=
  shm_buffer_paint_checkerboard_pattern
    { wl_buffer := 1, data := fun _ => 0, data_size := 64 } 2 2 2 1 10 20 0
    (by norm_num) (by norm_num) (by norm_num) (fun _ _ => by norm_num)

/-- C19, the claim as stated fails: for `width = 65536`, `height = 1`,
`scale = 65536` and `chk = 16` (a power of two) the first statement,
`int stride = width * scale`, overflows `int` (`65536 * 65536 = 2^32`): the
behaviour of the call is undefined and no pixel is painted as claimed. -/
theorem shm_buffer_paint_checkerboard_stride_overflows :
    (1 : Int) ≤ 65536 ∧ (16 : Nat) = 2 ^ 4 ∧
    ¬ ((65536 : Int) * 65536 < 2 ^ 31) ∧
    shm_buffer_paint_checkerboard
        (some { wl_buffer := 1, data := fun _ => 0, data_size := 0 }) 65536 1 65536 16 10 20
      = none := by
  refine ⟨by norm_num, by norm_num, by norm_num, ?_⟩
  rfl


/-- C13, the code at the failing input: the backing file cannot be created
(`fd = -1`), so `create_shm_buffer` returns `NULL`; `draw_splash_screen` hands the
`NULL` pointer to `shm_buffer_paint_checkerboard`, which reads `buffer->data`: the
call faults instead of returning.  The same happens when `mmap` fails. -/
theorem draw_splash_screen_faults_on_null_buffer :
    create_shm_buffer
        { fd := -1, mmap_failed := false, mapped := fun _ => 0, calloc_result := 4096,
          wl_buffer := 1, surface_has_damage_buffer := true } (2 * 2) (1 * 2) = some none ∧
    shm_buffer_paint_checkerboard none 2 1 2 16 0xffbcbcbc 0xff8e8e8e = none ∧
    draw_splash_screen
        { fd := -1, mmap_failed := false, mapped := fun _ => 0, calloc_result := 4096,
          wl_buffer := 1, surface_has_damage_buffer := true }
        { wl_zero with width := 2, height := 1, buffer_scale := 2 } = none ∧
    create_shm_buffer
        { fd := 3, mmap_failed := true, mapped := fun _ => 0, calloc_result := 4096,
          wl_buffer := 1, surface_has_damage_buffer := true } (2 * 2) (1 * 2) = some none ∧
    draw_splash_screen
        { fd := 3, mmap_failed := true, mapped := fun _ => 0, calloc_result := 4096,
          wl_buffer := 1, surface_has_damage_buffer := true }
        { wl_zero with width := 2, height := 1, buffer_scale := 2 } = none := by
  refine ⟨rfl, rfl, rfl, rfl, rfl⟩


/-! ## `set_vsync` -/

/-- C21: `set_vsync (enabled)` leaves the global `vsync` flag true if and only if
`enabled == 1`, whatever the flag was before (every other value, other non-zero
values included, disables it), and re-applies the loop timing with interval 1:
`EM_TIMING_RAF` with interval 1 when `enabled == 1`, `EM_TIMING_SETIMMEDIATE` with
value 0 otherwise. -/
theorem set_vsync_sets_flag_and_timing (c : em_timing_consts) (vsync_before : Bool)
    (enabled : Int) :
    ((set_vsync c vsync_before enabled).vsync = true ↔ enabled = 1) ∧
    (set_vsync c vsync_before enabled).vsync = decide (enabled = 1) ∧
    (set_vsync c vsync_before enabled).timing
      = (if enabled = 1 then { mode := c.EM_TIMING_RAF, value := 1 }
         else { mode := c.EM_TIMING_SETIMMEDIATE, value := 0 }) ∧
    (set_vsync c vsync_before enabled).timing
      = gfx_ctx_emscripten_webgl_swap_interval c (set_vsync c vsync_before enabled).vsync 1 := by
  unfold set_vsync gfx_ctx_emscripten_webgl_swap_interval
  by_cases h : enabled = 1
  · simp [h]
  · simp [h]

end RetroArch
